import Mathlib

/-!
Verification development for the qcustomlog logging engine
(qcustomlog.cpp / qcustomlog.h).

The C++ code is shallowly embedded: the static mutable state of the
QCustomLog class becomes explicit state records, file-system side effects
become pure updates of a directory value together with an event trace, and
the outcome of each fallible I/O primitive is injected through an oracle.
Machine floats used by the telemetry code are modelled by exact rationals;
the branch structure of the float code (the "less or equal zero" seeding
test) is preserved exactly.

File names: the rotation algorithm only discriminates file names through
the glob "appName_*.log", the numeric postfix parse, and the ".temp"
decoration, so names are embedded as that discrimination result: an
indexed log name, a temporary-renamed indexed name, a glob-matching name
whose postfix is not numeric, or an unrelated name.
-/

/-- The five Qt message severities handled by the logger. -/
inductive MsgType
  | debug
  | info
  | warning
  | critical
  | fatal
deriving DecidableEq, Repr

/-- Severity rank under the order Debug < Info < Warning < Critical < Fatal. -/
def levelRank : MsgType → Nat
  | .debug => 0
  | .info => 1
  | .warning => 2
  | .critical => 3
  | .fatal => 4

/-- QCustomLog::levelGreaterOrEqual, mirroring the switch over minLevel. -/
def levelGreaterOrEqual (level minLevel : MsgType) : Bool :=
  if level = minLevel then true
  else
    match minLevel with
    | .debug => true
    | .info => if level = .debug then false else true
    | .warning => if level = .debug ∨ level = .info then false else true
    | .critical => if level = .critical ∨ level = .fatal then true else false
    | .fatal => if level = .fatal then true else false

/-- The flush-duration EMA update performed at the end of
QCustomLog::flushBuffer: a stored value less or equal zero is treated as
uninitialized and replaced by the sample, otherwise the sample is blended
with alpha 0.1.  Float arithmetic is modelled by exact rationals. -/
def emaFlushRecord (cur sample : ℚ) : ℚ :=
  if cur ≤ 0 then sample else cur * (9 / 10) + sample * (1 / 10)

/-- Discriminated file names as seen by the rotation algorithm:
idx n is "appName_n.log", tempIdx n is "appName_n.log.temp" (the temporary
decoration added during a collision pass), junk s is a name matching the
glob "appName_*.log" whose postfix is not an unsigned integer, and other s
is a name not matching the glob at all. -/
inductive FileName
  | idx : Nat → FileName
  | tempIdx : Nat → FileName
  | junk : String → FileName
  | other : String → FileName
deriving DecidableEq, Repr

/-- Whether a name matches the directory scan glob "appName_*.log". -/
def isMatch : FileName → Bool
  | .idx _ => true
  | .junk _ => true
  | _ => false

/-- Whether a name is a well-formed indexed log file name. -/
def isIdx : FileName → Bool
  | .idx _ => true
  | _ => false

/-- Whether a name matches the glob but has a non-numeric postfix. -/
def isJunk : FileName → Bool
  | .junk _ => true
  | _ => false

/-- The numeric postfix of an indexed name (0 otherwise; only used on
indexed names, matching the sort key of the std::sort comparator). -/
def idxKey : FileName → Nat
  | .idx n => n
  | _ => 0

/-- The ".temp" decoration appended by the collision pass (only indexed
names reach that pass; the remaining cases are unreachable there). -/
def tempName : FileName → FileName
  | .idx n => .tempIdx n
  | n => n

/-- A directory entry: name, size in bytes, and content as a list of
lines (each line is stored without its terminating newline byte, which is
accounted separately in size). -/
structure LogFile where
  name : FileName
  size : Nat
  lines : List String
deriving DecidableEq, Repr

/-- A directory is the list of its entries. -/
abbrev Dir := List LogFile

/-- Outcomes injected for the fallible file-system primitives. -/
structure Oracle where
  removeOk : Bool
  renameOk : Bool
  touchOk : Bool
  openOk : Bool
deriving DecidableEq, Repr

/-- The all-success oracle ("no I/O failure"). -/
def Oracle.allOk : Oracle := ⟨true, true, true, true⟩

/-- Observable events of a run: file-system operations with their result,
error-handler invocations, and the logging-path events (enqueue, flush
call with its force flag, the write of a drained batch, the durable flush,
the sendLog observer call, console output, fatal termination). -/
inductive Ev
  | remove : FileName → Bool → Ev
  | rename : FileName → FileName → Bool → Ev
  | touch : FileName → Bool → Ev
  | openFile : FileName → Bool → Ev
  | errorReported : Ev
  | enq : String → Ev
  | flushCall : Bool → Ev
  | wrote : List String → Ev
  | durable : Ev
  | sendLogEv : Ev
  | consoleOut : String → Ev
  | fatalStop : Ev
deriving DecidableEq, Repr

/-- Whether an event records a failed file-system operation. -/
def isFailEv : Ev → Bool
  | .remove _ ok => !ok
  | .rename _ _ ok => !ok
  | .touch _ ok => !ok
  | .openFile _ ok => !ok
  | _ => false

/-- A trace with no failed file-system operation. -/
def failFree (tr : List Ev) : Bool := tr.all fun e => !isFailEv e

/-- Whether an event is a pure file-system / error-reporting event (as
opposed to a logging-path event). -/
def isFsEv : Ev → Bool
  | .remove _ _ => true
  | .rename _ _ _ => true
  | .touch _ _ => true
  | .openFile _ _ => true
  | .errorReported => true
  | .wrote _ => true
  | .durable => true
  | _ => false

/-- Whether an event is a rename to a temporary name. -/
def isTempRenameEv : Ev → Bool
  | .rename _ (.tempIdx _) _ => true
  | _ => false

/-- First directory entry with the given name, if any (QFileInfo lookup). -/
def findFile (d : Dir) (n : FileName) : Option LogFile :=
  d.find? fun f => decide (f.name = n)

/-- Whether some directory entry bears the given name. -/
def hasName (d : Dir) (n : FileName) : Bool :=
  d.any fun f => decide (f.name = n)

/-- Delete every entry with the given name (QFile::remove on that path). -/
def removeName (d : Dir) (n : FileName) : Dir :=
  d.filter fun f => !decide (f.name = n)

/-- Rename the entry bearing name a to name b (QFile::rename, applied
only after the success conditions were checked). -/
def renameIn (d : Dir) (a b : FileName) : Dir :=
  d.map fun f => if f.name = a then { f with name := b } else f

/-- Truncate-create: an empty file at the given name replaces any
previous entry with that name (QFile open WriteOnly|Truncate). -/
def truncCreate (d : Dir) (n : FileName) : Dir :=
  { name := n, size := 0, lines := [] } :: removeName d n

/-- Open for append: creates an empty file when the name is absent
(QFile open WriteOnly|Append). -/
def openAppend (d : Dir) (n : FileName) : Dir :=
  if hasName d n then d else { name := n, size := 0, lines := [] } :: d

/-- Append lines to the named file, each line followed by one terminator
byte (logFile.write of line.toUtf8 + newline, repeated over the batch). -/
def appendLines (d : Dir) (n : FileName) (ls : List String) : Dir :=
  d.map fun f =>
    if f.name = n then
      { f with lines := f.lines ++ ls,
               size := f.size + (ls.map fun l => l.utf8ByteSize + 1).sum }
    else f

/-- Content of the named file (empty when absent). -/
def fileLines (d : Dir) (n : FileName) : List String :=
  ((findFile d n).map (·.lines)).getD []

/-- Size of the named file (0 when absent). -/
def fileSize (d : Dir) (n : FileName) : Nat :=
  ((findFile d n).map (·.size)).getD 0

/-- Result of a fallible remove. -/
structure RemOut where
  dir : Dir
  tr : List Ev
deriving DecidableEq, Repr

/-- QFile::remove with error reporting on failure (rotateLogFiles reports
deletion errors through callErrorHandler and continues). -/
def tryRemoveP (o : Oracle) (d : Dir) (n : FileName) : RemOut :=
  if o.removeOk && hasName d n then ⟨removeName d n, [.remove n true]⟩
  else ⟨d, [.remove n false, .errorReported]⟩

/-- Remove a list of names in order, accumulating the trace. -/
def removeAll (o : Oracle) (d : Dir) : List FileName → RemOut
  | [] => ⟨d, []⟩
  | n :: ns =>
    let q := tryRemoveP o d n
    let r := removeAll o q.dir ns
    ⟨r.dir, q.tr ++ r.tr⟩

/-- Result of a fallible rename or create. -/
structure OpOut where
  dir : Dir
  ok : Bool
  tr : List Ev
deriving DecidableEq, Repr

/-- QFile::rename: fails when the oracle says so, when the source is
missing, or when the destination name is already occupied (Qt rename never
overwrites); failures are reported and the file keeps its old name. -/
def tryRenameP (o : Oracle) (d : Dir) (src dst : FileName) : OpOut :=
  if o.renameOk && hasName d src && !hasName d dst then
    ⟨renameIn d src dst, true, [.rename src dst true]⟩
  else ⟨d, false, [.rename src dst false, .errorReported]⟩

/-- QCustomLog::logFileTouch: truncate-create the file, reporting the
creation error on failure. -/
def tryTouchP (o : Oracle) (d : Dir) (n : FileName) : OpOut :=
  if o.touchOk then ⟨truncCreate d n, true, [.touch n true]⟩
  else ⟨d, false, [.touch n false, .errorReported]⟩

/-- Result of a rename pass over the in-memory fileList: the updated
directory, the updated fileList, and the trace. -/
structure PassOut where
  dir : Dir
  fl : List LogFile
  tr : List Ev
deriving DecidableEq, Repr

/-- The temporary-rename pass of rotateLogFiles (ascending loop over
fileList): each file is renamed to its ".temp" decoration; on failure the
error is reported and the entry keeps its old name. -/
def tempAux (o : Oracle) (d : Dir) : List LogFile → PassOut
  | [] => ⟨d, [], []⟩
  | f :: rest =>
    let q := tryRenameP o d f.name (tempName f.name)
    let f' := if q.ok then { f with name := tempName f.name } else f
    let r := tempAux o q.dir rest
    ⟨r.dir, f' :: r.fl, q.tr ++ r.tr⟩

/-- The linear-rename pass of rotateLogFiles, descending from the last
fileList position: the argument list is the reversed fileList and k is
one plus the position of its head (that head's rename target index).  A
file already named like its target is skipped; otherwise it is renamed to
idx k, the error being reported on failure. -/
def linAux (o : Oracle) (d : Dir) : List LogFile → Nat → PassOut
  | [], _ => ⟨d, [], []⟩
  | f :: rest, k =>
    if f.name = .idx k then
      let r := linAux o d rest (k - 1)
      ⟨r.dir, f :: r.fl, r.tr⟩
    else
      let q := tryRenameP o d f.name (.idx k)
      let f' := if q.ok then { f with name := .idx k } else f
      let r := linAux o q.dir rest (k - 1)
      ⟨r.dir, f' :: r.fl, q.tr ++ r.tr⟩

/-- Ordered insert by numeric postfix (the std::sort comparator compares
parsed postfixes with strict less-than; keys are distinct in every run, so
a stable insertion sort computes the same ordering). -/
def insertSorted (f : LogFile) : List LogFile → List LogFile
  | [] => [f]
  | g :: gs => if idxKey f.name ≤ idxKey g.name then f :: g :: gs
               else g :: insertSorted f gs

/-- Sort a fileList ascending by numeric postfix. -/
def sortFiles : List LogFile → List LogFile
  | [] => []
  | f :: fs => insertSorted f (sortFiles fs)

/-- Names of the scanned entries whose postfix fails the toUInt parse;
these are deleted (best effort) and dropped from the fileList. -/
def junkNamesOf (d : Dir) : List FileName :=
  (d.filter fun f => isJunk f.name).map (·.name)

/-- The fileList after the junk filter and the numeric sort: the
glob-matching entries with parseable postfix, ascending by postfix. -/
def scanSorted (d : Dir) : List LogFile :=
  sortFiles (d.filter fun f => isIdx f.name)

/-- The fileList after the redundant-file trim (kept prefix of length at
most maxLogFiles). -/
def keptFiles (cfg : Nat) (d : Dir) : List LogFile :=
  (scanSorted d).take cfg

/-- Names dropped by the redundant-file trim, in deletion order (the
while loop deletes from the last, i.e. largest-postfix, end). -/
def droppedNames (cfg : Nat) (d : Dir) : List FileName :=
  (((scanSorted d).drop cfg).map (·.name)).reverse

/-- The surviving fileList once room for the new index-0 file has been
made: when the kept count has already reached maxLogFiles the last file
is deleted first. -/
def survivors (cfg : Nat) (d : Dir) : List LogFile :=
  if cfg ≤ (keptFiles cfg d).length then (keptFiles cfg d).dropLast
  else keptFiles cfg d

/-- Name removed by the make-room step, when any. -/
def roomName (cfg : Nat) (d : Dir) : List FileName :=
  if cfg ≤ (keptFiles cfg d).length then
    (((keptFiles cfg d).getLast?).map (·.name)).toList
  else []

/-- The obstacle check of rotateLogFiles: some surviving file already
bears the name "appName_<count>.log" where count is the number of
survivors (the target of the final linear rename). -/
def obstacleFound (fl : List LogFile) : Bool :=
  fl.any fun f => decide (f.name = .idx fl.length)

/-- The naive-collision predicate underlying the claim: during the
descending linear renames (position i is renamed to index i+1), some
position i's target name is currently borne by a file at an earlier
position j < i that has not been renamed yet in this pass. -/
def naiveCollisionB (fl : List LogFile) : Bool :=
  (List.range fl.length).any fun i =>
    (fl.take i).any fun f => decide (f.name = FileName.idx (i + 1))

/-- Logger configuration and mutable limits (the m_ statics other than
buffer, directory and telemetry).  ndebug reflects the NDEBUG
conditional compilation flag. -/
structure Config where
  maxLogFiles : Nat
  maxLogFileSize : Nat
  dirSet : Bool
  bufferEnabled : Bool
  minOutLevel : MsgType
  minOutFileLevel : MsgType
  cleanLogCategory : String
  cleanToFile : Bool
  ndebug : Bool
deriving DecidableEq, Repr

/-- Result of rotateLogFiles: the directory, the by-reference
logFileName out-parameter, the boolean result, and the event trace. -/
structure RotOut where
  dir : Dir
  logFileName : Option FileName
  ok : Bool
  tr : List Ev
deriving DecidableEq, Repr

/-- The fast-path check at the top of rotateLogFiles: an already-resolved
logFileName is kept only when it equals the main name "appName_0.log" and
that file still exists with size below maxLogFileSize; otherwise it is
cleared and the scan runs. -/
def fastPathKeep (cfg : Config) (d : Dir) : Option FileName → Bool
  | none => false
  | some n =>
    if n = .idx 0 then
      match findFile d (.idx 0) with
      | some f => decide (f.size < cfg.maxLogFileSize)
      | none => false
    else false

/-- The scan branch of rotateLogFiles (logFileName empty or cleared):
delete junk-postfix files, sort, trim beyond maxLogFiles, then, when the
lowest-index file is oversized or misnamed, make room, run the obstacle
check with the optional temporary-rename pass, linear-rename descending,
and truncate-create the main file; on creation failure the error is
reported, logFileName is still assigned the main name and false is
returned. -/
def rotateScan (cfg : Config) (o : Oracle) (dir : Dir) : RotOut :=
  let r1 := removeAll o dir (junkNamesOf dir)
  let r2 := removeAll o r1.dir (droppedNames cfg.maxLogFiles dir)
  match keptFiles cfg.maxLogFiles dir with
  | [] =>
    let t := tryTouchP o r2.dir (.idx 0)
    ⟨t.dir, some (.idx 0), t.ok, r1.tr ++ r2.tr ++ t.tr⟩
  | first :: _ =>
    if cfg.maxLogFileSize ≤ first.size ∨ first.name ≠ .idx 0 then
      let r3 := removeAll o r2.dir (roomName cfg.maxLogFiles dir)
      let fl4 := survivors cfg.maxLogFiles dir
      let p1 := if obstacleFound fl4 then tempAux o r3.dir fl4
                else ⟨r3.dir, fl4, []⟩
      let p2 := linAux o p1.dir p1.fl.reverse p1.fl.length
      let t := tryTouchP o p2.dir (.idx 0)
      ⟨t.dir, some (.idx 0), t.ok, r1.tr ++ r2.tr ++ r3.tr ++ p1.tr ++ p2.tr ++ t.tr⟩
    else ⟨r2.dir, some (.idx 0), true, r1.tr ++ r2.tr⟩

/-- QCustomLog::rotateLogFiles: fail when the log directory is unset,
keep a still-valid resolved logFileName (fast path, directory untouched),
otherwise run the scan branch.  Every success path assigns the main name
"appName_0.log" to logFileName. -/
def rotateLogFiles (cfg : Config) (o : Oracle) (d : Dir)
    (lfn : Option FileName) : RotOut :=
  if cfg.dirSet = false then ⟨d, lfn, false, [.errorReported]⟩
  else if fastPathKeep cfg d lfn then ⟨d, some (.idx 0), true, []⟩
  else rotateScan cfg o d

/-- The mutable logging state: configuration, directory, the resolved
m_logFileName (none models the empty string), and the m_logBuffer FIFO. -/
structure LogState where
  cfg : Config
  dir : Dir
  logFileName : Option FileName
  buffer : List String
deriving DecidableEq, Repr

/-- QCustomLog::flushBuffer(force).  The buffer is drained under the
buffer lock (double-buffer swap); mid is the sequence of lines enqueued by
other threads between that drain and the next buffer-lock acquisition, so
it lands behind the requeued batch on failure and stays in the buffer on
success.  On rotation failure or open failure the drained batch is
prepended back in front of mid; on success every drained line is appended
to the active file followed by a terminator, and a durable flush is issued
when force is set.  The timer restart and the high-water-mark update are
scheduling and capacity concerns with no effect on buffer or file content
and are not modelled. -/
def flushBuffer (o : Oracle) (force : Bool) (mid : List String)
    (s : LogState) : LogState × List Ev :=
  if s.buffer.isEmpty then ({ s with buffer := mid }, [])
  else
    let batch := s.buffer
    let r := rotateLogFiles s.cfg o s.dir s.logFileName
    if r.ok = false then
      ({ s with dir := r.dir, logFileName := r.logFileName,
                buffer := batch ++ mid }, r.tr)
    else
      let tgt := r.logFileName.getD (.idx 0)
      if o.openOk = false then
        ({ s with dir := r.dir, logFileName := r.logFileName,
                  buffer := batch ++ mid },
         r.tr ++ [.openFile tgt false, .errorReported])
      else
        ({ s with dir := appendLines (openAppend r.dir tgt) tgt batch,
                  logFileName := r.logFileName, buffer := mid },
         r.tr ++ [.openFile tgt true, .wrote batch]
            ++ (if force then [.durable] else []))

/-- An incoming log record: the rendered timestamp together with the
QMessageLogContext fields and the message text. -/
structure Record where
  timestamp : String
  category : String
  file : String
  function : String
  msg : String
deriving DecidableEq, Repr

/-- Index of the first occurrence of a character. -/
def idxOfChar (c : Char) (l : List Char) : Option Nat :=
  l.findIdx? fun x => decide (x = c)

/-- Index of the last occurrence of a character. -/
def lastIdxOfChar (c : Char) (l : List Char) : Option Nat :=
  (idxOfChar c l.reverse).map fun i => l.length - 1 - i

/-- The "virtual " strip of the debug branch: when the function signature
starts with "virtual ", every occurrence of that substring is removed
(QString::remove removes all occurrences). -/
def stripVirtual (f : String) : String :=
  if f.startsWith "virtual " then f.replace "virtual " "" else f

/-- The argument-list removal of the debug branch: the characters between
the first opening parenthesis and the last closing parenthesis are
removed.  The main path (both parentheses present, in order) is modelled;
the degenerate QString index arithmetic on signatures lacking a
parenthesis leaves the string unchanged here. -/
def removeBetweenParens (f : String) : String :=
  let cs := f.toList
  match idxOfChar '(' cs, lastIdxOfChar ')' cs with
  | some i, some j =>
    if i + 1 ≤ j then String.mk (cs.take (i + 1) ++ cs.drop j) else f
  | _, _ => f

/-- The file base name used by the debug branch: the part after the last
slash or backslash (QString remove of the leading path). -/
def baseName (p : String) : String :=
  let cs := p.toList
  let a := ((lastIdxOfChar '\\' cs).map Int.ofNat).getD (-1)
  let b := ((lastIdxOfChar '/' cs).map Int.ofNat).getD (-1)
  String.mk (cs.drop (max a b + 1).toNat)

/-- The message decoration applied only to debug records: base file name,
stripped function signature, then the message. -/
def debugDecorate (file func msg : String) : String :=
  baseName file ++ ": " ++ removeBetweenParens (stripVirtual func) ++ ": " ++ msg

/-- The level tag appended to the timestamp. -/
def levelTag : MsgType → String
  | .debug => "DBG"
  | .info => "INF"
  | .warning => "WRN"
  | .critical => "CRT"
  | .fatal => "FTL"

/-- The formatted line built by messageHandler: rendered timestamp, level
tag, category, and the (possibly debug-decorated) message. -/
def formatted (type : MsgType) (r : Record) : String :=
  let message := if type = .debug then debugDecorate r.file r.function r.msg
                 else r.msg
  r.timestamp ++ " [" ++ levelTag type ++ "] [" ++ r.category ++ "] " ++ message

/-- Console rendering per severity (ANSI color wrapping as in the
qDebug/qInfo/qWarning/qCritical calls). -/
def consoleLine (type : MsgType) (fm : String) : String :=
  match type with
  | .debug => "\x1b[90m" ++ fm ++ "\x1b[0m"
  | .info => fm
  | .warning => "\x1b[33m" ++ fm ++ "\x1b[0m"
  | .critical => "\x1b[31m" ++ fm ++ "\x1b[0m"
  | .fatal => "\x1b[35m" ++ fm ++ "\x1b[0m"

/-- The clean-category write condition of messageHandler: writing to file
and notifying the observer is allowed unless a clean category is set, the
record bears exactly that category, and writeToFile was disabled. -/
def cleanPasses (cfg : Config) (category : String) : Bool :=
  cfg.cleanLogCategory.isEmpty || category ≠ cfg.cleanLogCategory || cfg.cleanToFile

/-- The console output of a non-fatal record: with no clean category the
formatted line is printed when the level passes minOutLevel; with a clean
category set, only records of exactly that category are printed, raw. -/
def consoleTrace (cfg : Config) (type : MsgType) (category rawMsg fm : String) :
    List Ev :=
  if cfg.cleanLogCategory.isEmpty then
    if levelGreaterOrEqual type cfg.minOutLevel then
      [Ev.consoleOut (consoleLine type fm)]
    else []
  else if category = cfg.cleanLogCategory then [Ev.consoleOut rawMsg] else []

/-- QCustomLog::messageHandler.  Debug records vanish entirely under
NDEBUG.  Non-fatal records first produce their console output (gated by
minOutLevel, or rerouted raw when a clean category matches), then, when
the clean-category condition allows writing, the formatted line is
enqueued if the level passes minOutFileLevel; a critical record forces a
synchronous durable flush and, when buffering is disabled, any enqueued
record is followed by a synchronous non-forced flush; the sendLog observer
is then notified exactly once.  A fatal record, when the clean-category
condition allows, is enqueued and durably flushed synchronously and the
observer notified, before the qFatal console print and termination; when
the clean-category condition forbids writing, the fatal record goes only
to the console before termination.  The handler is modelled sequentially
(the flush runs with no concurrent enqueues). -/
def messageHandler (o : Oracle) (type : MsgType) (r : Record)
    (s : LogState) : LogState × List Ev :=
  if s.cfg.ndebug ∧ type = .debug then (s, [])
  else
    let fm := formatted type r
    match type with
    | .fatal =>
      let con := Ev.consoleOut (if s.cfg.cleanLogCategory.isEmpty then
                   consoleLine .fatal fm else "[FTL] " ++ r.msg)
      if cleanPasses s.cfg r.category then
        let s1 := { s with buffer := s.buffer ++ [fm] }
        let z := flushBuffer o true [] s1
        (z.1, [Ev.enq fm, Ev.flushCall true] ++ z.2
              ++ [Ev.sendLogEv, con, Ev.fatalStop])
      else (s, [con, Ev.fatalStop])
    | _ =>
      let conTr := consoleTrace s.cfg type r.category r.msg fm
      if cleanPasses s.cfg r.category then
        if levelGreaterOrEqual type s.cfg.minOutFileLevel then
          let s1 := { s with buffer := s.buffer ++ [fm] }
          if type = .critical then
            let z := flushBuffer o true [] s1
            (z.1, conTr ++ [Ev.enq fm, Ev.flushCall true] ++ z.2 ++ [Ev.sendLogEv])
          else if s.cfg.bufferEnabled = false then
            let z := flushBuffer o false [] s1
            (z.1, conTr ++ [Ev.enq fm, Ev.flushCall false] ++ z.2 ++ [Ev.sendLogEv])
          else (s1, conTr ++ [Ev.enq fm, Ev.sendLogEv])
        else (s, conTr ++ [Ev.sendLogEv])
      else (s, conTr)

/-- QCustomLog::initLogging: probe directory writability, set the
directory, run the first rotation pass, and only then clamp and store the
caller-supplied maxFiles (minimum 2) and maxFileSize (minimum 100 KiB)
and derive the buffering mode from the flush interval (enabled from
1000 ms up).  The rotation pass therefore still runs under the previously
configured limits. -/
def initLogging (dirWritable : Bool) (o : Oracle) (flushTime maxFiles
    maxFileSize : Nat) (s : LogState) : Bool × LogState :=
  if dirWritable = false then (false, s)
  else
    let cfg0 := { s.cfg with dirSet := true }
    let r := rotateLogFiles cfg0 o s.dir s.logFileName
    let s1 := { s with cfg := cfg0, dir := r.dir, logFileName := r.logFileName }
    if r.ok = false then (false, s1)
    else
      let mf := if maxFiles < 2 then 2 else maxFiles
      let ms := if maxFileSize < 100 * 1024 then 100 * 1024 else maxFileSize
      (true, { s1 with cfg := { cfg0 with maxLogFiles := mf,
                                          maxLogFileSize := ms,
                                          bufferEnabled := 1000 ≤ flushTime } })

/-- Number of glob-matching log files in a directory. -/
def mcount (d : Dir) : Nat := d.countP fun f => isMatch f.name

/-- Number of entries bearing a given name. -/
def cntN (l : List FileName) (a : FileName) : Nat :=
  l.countP fun x => decide (x = a)

/-- The names of a list of entries (directory or fileList). -/
def names (d : List LogFile) : List FileName := d.map (·.name)

theorem cntN_eq_zero_of_not_mem {l : List FileName} {a : FileName}
    (h : a ∉ l) : cntN l a = 0 := by
  simp only [cntN, List.countP_eq_zero]
  intro x hx
  simp only [decide_eq_true_eq]
  rintro rfl
  exact h hx

theorem cnt_le_one_of_nodup {l : List FileName} (h : l.Nodup)
    (a : FileName) : cntN l a ≤ 1 := by
  induction l with
  | nil => simp [cntN]
  | cons b l ih =>
    rcases List.nodup_cons.mp h with ⟨hb, hl⟩
    by_cases hba : b = a
    · subst hba
      have h0 : cntN l b = 0 := cntN_eq_zero_of_not_mem hb
      simp only [cntN] at h0 ⊢
      rw [List.countP_cons]
      simp [h0]
    · have hi := ih hl
      simp only [cntN] at hi ⊢
      rw [List.countP_cons]
      simpa [hba] using hi

theorem removeAll_tr_fs (o : Oracle) (ns : List FileName) (d : Dir) :
    ∀ e ∈ (removeAll o d ns).tr, isFsEv e = true := by
  induction ns generalizing d with
  | nil => simp [removeAll]
  | cons n ns ih =>
    intro e he
    simp only [removeAll, List.mem_append] at he
    rcases he with he | he
    · unfold tryRemoveP at he
      split at he
      · simp only [List.mem_singleton] at he; subst he; rfl
      · simp only [List.mem_cons, List.not_mem_nil, or_false] at he
        rcases he with rfl | rfl <;> rfl
    · exact ih _ e he

theorem tempAux_tr_fs (o : Oracle) (fl : List LogFile) (d : Dir) :
    ∀ e ∈ (tempAux o d fl).tr, isFsEv e = true := by
  induction fl generalizing d with
  | nil => simp [tempAux]
  | cons f fl ih =>
    intro e he
    simp only [tempAux, List.mem_append] at he
    rcases he with he | he
    · unfold tryRenameP at he
      split at he
      · simp only [List.mem_singleton] at he; subst he; rfl
      · simp only [List.mem_cons, List.not_mem_nil, or_false] at he
        rcases he with rfl | rfl <;> rfl
    · exact ih _ e he

theorem linAux_tr_fs (o : Oracle) (fl : List LogFile) (d : Dir) (k : Nat) :
    ∀ e ∈ (linAux o d fl k).tr, isFsEv e = true := by
  induction fl generalizing d k with
  | nil => simp [linAux]
  | cons f fl ih =>
    intro e he
    simp only [linAux] at he
    split at he
    · exact ih _ _ e he
    · simp only [List.mem_append] at he
      rcases he with he | he
      · unfold tryRenameP at he
        split at he
        · simp only [List.mem_singleton] at he; subst he; rfl
        · simp only [List.mem_cons, List.not_mem_nil, or_false] at he
          rcases he with rfl | rfl <;> rfl
      · exact ih _ _ e he

theorem tryTouchP_tr_fs (o : Oracle) (d : Dir) (n : FileName) :
    ∀ e ∈ (tryTouchP o d n).tr, isFsEv e = true := by
  intro e he
  unfold tryTouchP at he
  split at he
  · simp only [List.mem_singleton] at he; subst he; rfl
  · simp only [List.mem_cons, List.not_mem_nil, or_false] at he
    rcases he with rfl | rfl <;> rfl

theorem rotateScan_tr_fs (cfg : Config) (o : Oracle) (d : Dir) :
    ∀ e ∈ (rotateScan cfg o d).tr, isFsEv e = true := by
  intro e he
  unfold rotateScan at he
  split at he
  · simp only [List.mem_append] at he
    rcases he with (he | he) | he
    · exact removeAll_tr_fs o _ _ e he
    · exact removeAll_tr_fs o _ _ e he
    · exact tryTouchP_tr_fs o _ _ e he
  · split at he
    · simp only [List.mem_append] at he
      rcases he with ((((he | he) | he) | he) | he) | he
      · exact removeAll_tr_fs o _ _ e he
      · exact removeAll_tr_fs o _ _ e he
      · exact removeAll_tr_fs o _ _ e he
      · revert he
        split
        · exact fun he => tempAux_tr_fs o _ _ e he
        · simp
      · exact linAux_tr_fs o _ _ _ e he
      · exact tryTouchP_tr_fs o _ _ e he
    · simp only [List.mem_append] at he
      rcases he with he | he
      · exact removeAll_tr_fs o _ _ e he
      · exact removeAll_tr_fs o _ _ e he

theorem rotate_tr_fs (cfg : Config) (o : Oracle) (d : Dir)
    (lfn : Option FileName) :
    ∀ e ∈ (rotateLogFiles cfg o d lfn).tr, isFsEv e = true := by
  intro e he
  unfold rotateLogFiles at he
  split at he
  · simp only [List.mem_singleton] at he; subst he; rfl
  · split at he
    · simp_all
    · exact rotateScan_tr_fs cfg o d e he

theorem rotate_logFileName_of_dirSet (cfg : Config) (o : Oracle) (d : Dir)
    (lfn : Option FileName) (hd : cfg.dirSet = true) :
    (rotateLogFiles cfg o d lfn).logFileName = some (.idx 0) := by
  unfold rotateLogFiles
  rw [hd]
  simp only [Bool.true_eq_false, if_false]
  split
  · rfl
  · unfold rotateScan
    split
    · unfold tryTouchP
      split <;> rfl
    · split
      · unfold tryTouchP
        split <;> rfl
      · rfl

theorem rotateScan_ok_of_touchOk (cfg : Config) (o : Oracle) (d : Dir)
    (ht : o.touchOk = true) : (rotateScan cfg o d).ok = true := by
  unfold rotateScan
  split
  · simp [tryTouchP, ht]
  · split
    · simp [tryTouchP, ht]
    · rfl

theorem rotate_ok_allOk (cfg : Config) (d : Dir) (lfn : Option FileName)
    (hd : cfg.dirSet = true) :
    (rotateLogFiles cfg Oracle.allOk d lfn).ok = true := by
  unfold rotateLogFiles
  rw [hd]
  simp only [Bool.true_eq_false, if_false]
  split
  · rfl
  · exact rotateScan_ok_of_touchOk cfg Oracle.allOk d rfl

theorem rotateScan_fail_err (cfg : Config) (o : Oracle) (d : Dir)
    (hf : (rotateScan cfg o d).ok = false) :
    Ev.errorReported ∈ (rotateScan cfg o d).tr := by
  unfold rotateScan at hf ⊢
  rcases hk : keptFiles cfg.maxLogFiles d with _ | ⟨first, rest⟩
  all_goals simp only [hk] at hf ⊢
  · by_cases hto : o.touchOk = true
    · simp [tryTouchP, hto] at hf
    · simp [tryTouchP, hto]
  · by_cases hneed : cfg.maxLogFileSize ≤ first.size ∨ first.name ≠ FileName.idx 0
    · rw [if_pos hneed] at hf ⊢
      by_cases hto : o.touchOk = true
      · simp [tryTouchP, hto] at hf
      · simp [tryTouchP, hto]
    · rw [if_neg hneed] at hf
      simp at hf

theorem rotate_fail_cases (cfg : Config) (o : Oracle) (d : Dir)
    (lfn : Option FileName) (hd : cfg.dirSet = true)
    (hf : (rotateLogFiles cfg o d lfn).ok = false) :
    Ev.errorReported ∈ (rotateLogFiles cfg o d lfn).tr ∧
      (rotateLogFiles cfg o d lfn).logFileName = some (.idx 0) := by
  refine ⟨?_, rotate_logFileName_of_dirSet cfg o d lfn hd⟩
  unfold rotateLogFiles at hf ⊢
  rw [hd] at hf ⊢
  simp only [Bool.true_eq_false, if_false] at hf ⊢
  by_cases hfp : fastPathKeep cfg d lfn = true
  · rw [if_pos hfp] at hf
    simp at hf
  · rw [if_neg hfp] at hf ⊢
    exact rotateScan_fail_err cfg o d hf

theorem fastPathKeep_none_of_absent (cfg : Config) (d : Dir)
    (h : findFile d (.idx 0) = none) (lfn : Option FileName) :
    fastPathKeep cfg d lfn = false := by
  cases lfn with
  | none => rfl
  | some n => simp [fastPathKeep, h]

theorem rotate_retry_of_absent (cfg : Config) (o : Oracle) (d : Dir)
    (lfn : Option FileName) (hd : cfg.dirSet = true)
    (h : findFile d (.idx 0) = none) :
    rotateLogFiles cfg o d lfn = rotateLogFiles cfg o d none := by
  unfold rotateLogFiles
  rw [hd]
  simp only [Bool.true_eq_false, if_false]
  rw [fastPathKeep_none_of_absent cfg d h lfn,
      fastPathKeep_none_of_absent cfg d h none]

theorem openAppend_hasName (d : Dir) (n : FileName) :
    hasName (openAppend d n) n = true := by
  unfold openAppend
  by_cases h : hasName d n = true
  · rw [if_pos h]; exact h
  · rw [if_neg h]
    simp [hasName]

theorem hasName_eq_false_of_findFile_none {d : Dir} {n : FileName}
    (h : findFile d n = none) : hasName d n = false := by
  induction d with
  | nil => rfl
  | cons f d ih =>
    by_cases hf : f.name = n
    · exfalso
      unfold findFile at h
      rw [List.find?_cons_of_pos] at h
      · simp at h
      · simp [hf]
    · unfold findFile at h
      rw [List.find?_cons_of_neg] at h
      · have := ih h
        simp only [hasName, List.any_cons] at this ⊢
        simp [hf, this]
      · simp [hf]

theorem findFile_appendLines (d : Dir) (n : FileName) (ls : List String)
    (h : hasName d n = true) :
    findFile (appendLines d n ls) n = (findFile d n).map fun f =>
      { f with lines := f.lines ++ ls,
               size := f.size + (ls.map fun l => l.utf8ByteSize + 1).sum } := by
  induction d with
  | nil => simp [hasName] at h
  | cons f d ih =>
    have hmap : appendLines (f :: d) n ls =
        (if f.name = n then
          { f with lines := f.lines ++ ls,
                   size := f.size + (ls.map fun l => l.utf8ByteSize + 1).sum }
         else f) :: appendLines d n ls := by
      simp [appendLines]
    by_cases hf : f.name = n
    · rw [hmap, if_pos hf]
      unfold findFile
      rw [List.find?_cons_of_pos, List.find?_cons_of_pos]
      · simp
      · simp [hf]
      · simp [hf]
    · have h' : hasName d n = true := by
        simpa [hasName, hf] using h
      rw [hmap, if_neg hf]
      unfold findFile at ih ⊢
      rw [List.find?_cons_of_neg, List.find?_cons_of_neg]
      · exact ih h'
      · simp [hf]
      · simp [hf]

theorem fileLines_appendLines (d : Dir) (n : FileName) (ls : List String)
    (h : hasName d n = true) :
    fileLines (appendLines d n ls) n = fileLines d n ++ ls := by
  have hh := findFile_appendLines d n ls h
  unfold fileLines
  rw [hh]
  cases hfind : findFile d n with
  | none =>
    rw [hasName_eq_false_of_findFile_none hfind] at h
    simp at h
  | some f => simp

theorem fileSize_appendLines (d : Dir) (n : FileName) (ls : List String)
    (h : hasName d n = true) :
    fileSize (appendLines d n ls) n =
      fileSize d n + (ls.map fun l => l.utf8ByteSize + 1).sum := by
  have hh := findFile_appendLines d n ls h
  unfold fileSize
  rw [hh]
  cases hfind : findFile d n with
  | none =>
    rw [hasName_eq_false_of_findFile_none hfind] at h
    simp at h
  | some f => simp

theorem flush_fail_spec (s : LogState) (o : Oracle) (force : Bool)
    (mid : List String) (hb : s.buffer ≠ [])
    (hfail : (rotateLogFiles s.cfg o s.dir s.logFileName).ok = false ∨
      o.openOk = false) :
    (flushBuffer o force mid s).1 =
      { s with dir := (rotateLogFiles s.cfg o s.dir s.logFileName).dir,
               logFileName := (rotateLogFiles s.cfg o s.dir s.logFileName).logFileName,
               buffer := s.buffer ++ mid } := by
  have hbe : s.buffer.isEmpty = false := by
    simpa [List.isEmpty_iff] using hb
  by_cases hro : (rotateLogFiles s.cfg o s.dir s.logFileName).ok = false
  · simp [flushBuffer, hbe, hro]
  · have ho : o.openOk = false := hfail.resolve_left hro
    simp [flushBuffer, hbe, hro, ho]

theorem flush_success_spec (s : LogState) (force : Bool) (mid : List String)
    (hd : s.cfg.dirSet = true) (hb : s.buffer ≠ []) :
    (flushBuffer Oracle.allOk force mid s).1 =
      { s with dir := appendLines (openAppend
                 (rotateLogFiles s.cfg Oracle.allOk s.dir s.logFileName).dir
                 (.idx 0)) (.idx 0) s.buffer,
               logFileName := some (.idx 0), buffer := mid } ∧
    (flushBuffer Oracle.allOk force mid s).2 =
      (rotateLogFiles s.cfg Oracle.allOk s.dir s.logFileName).tr
        ++ [.openFile (.idx 0) true, .wrote s.buffer]
        ++ (if force then [.durable] else []) := by
  have hok := rotate_ok_allOk s.cfg s.dir s.logFileName hd
  have hnm := rotate_logFileName_of_dirSet s.cfg Oracle.allOk s.dir
    s.logFileName hd
  have hbe : s.buffer.isEmpty = false := by
    simpa [List.isEmpty_iff] using hb
  have hoo : Oracle.allOk.openOk = false ↔ False := by
    simp [Oracle.allOk]
  constructor <;> simp [flushBuffer, hbe, hok, hnm, hoo]

theorem flush_tr_fs (s : LogState) (o : Oracle) (force : Bool)
    (mid : List String) :
    ∀ e ∈ (flushBuffer o force mid s).2, isFsEv e = true := by
  intro e he
  simp only [flushBuffer] at he
  by_cases hbe : s.buffer.isEmpty = true
  · rw [if_pos hbe] at he
    simp at he
  · rw [if_neg hbe] at he
    by_cases hro : (rotateLogFiles s.cfg o s.dir s.logFileName).ok = false
    · rw [if_pos hro] at he
      exact rotate_tr_fs _ _ _ _ e he
    · rw [if_neg hro] at he
      by_cases hoo : o.openOk = false
      · rw [if_pos hoo] at he
        simp only [List.append_assoc, List.mem_append] at he
        rcases he with he | he
        · exact rotate_tr_fs _ _ _ _ e he
        · simp only [List.mem_cons, List.not_mem_nil, or_false] at he
          rcases he with rfl | rfl <;> rfl
      · rw [if_neg hoo] at he
        simp only [List.append_assoc, List.mem_append] at he
        rcases he with he | he
        · exact rotate_tr_fs _ _ _ _ e he
        · simp only [List.mem_append, List.mem_cons, List.not_mem_nil,
            or_false] at he
          rcases he with (rfl | rfl) | he
          · rfl
          · rfl
          · revert he
            split
            · intro he
              simp only [List.mem_singleton] at he
              subst he; rfl
            · simp

/-- Claim C2: for every pair of levels drawn from the five severities,
levelGreaterOrEqual returns exactly the section 4.1 threshold table, which
coincides with the ordinal comparison level at least minLevel under
Debug < Info < Warning < Critical < Fatal; in particular with minLevel
Critical only Critical and Fatal pass. -/
theorem C2_level_threshold_table :
    ∀ level minLevel : MsgType,
      levelGreaterOrEqual level minLevel =
        decide (levelRank minLevel ≤ levelRank level) := by
  intro level minLevel
  cases level <;> cases minLevel <;> rfl

/-- Claim C9 as stated is false on the code: the flush EMA treats a
stored value less or equal zero as uninitialized, so after a first sample
of zero (the claimed "for every value of a, including zero") a second
sample b re-seeds the average to b instead of blending to b times 0.1:
with a = 0 and b = 1 the tracker reports 1, not 1/10. -/
theorem C9_ema_zero_seed_cx :
    emaFlushRecord (emaFlushRecord 0 0) 1 = 1 ∧
      (0 : ℚ) * (1 - 1 / 10) + 1 * (1 / 10) = 1 / 10 ∧
      (1 : ℚ) ≠ 1 / 10 := by
  norm_num [emaFlushRecord]

/-- Claim C9 amended: after a single sample a from the initial zero
state the exposed average equals a; a second sample b is blended as
a * 0.9 + b * 0.1 only when a is positive, while for a less or equal
zero (the uninitialized sentinel, including a first sample of exactly
zero) the second sample re-seeds the average to b. -/
theorem C9_ema_seeding_amended (a b : ℚ) :
    emaFlushRecord 0 a = a ∧
      emaFlushRecord (emaFlushRecord 0 a) b =
        (if a ≤ 0 then b else a * (9 / 10) + b * (1 / 10)) := by
  constructor
  · simp [emaFlushRecord]
  · simp [emaFlushRecord]

/-- Claim C1: with every file-system operation succeeding and the log
directory configured, a flush leaves in the buffer exactly the lines
enqueued concurrently with it (mid), is a no-op on the directory when the
buffer was empty, and otherwise appends exactly the drained batch, in
order, each line once, to the active index-0 file resolved by the
rotation pass, growing its size by each line's byte length plus one
terminator byte, with the write of exactly that batch in the trace. -/
theorem C1_flush_writes_exactly (s : LogState) (force : Bool)
    (mid : List String) (hd : s.cfg.dirSet = true) :
    (flushBuffer Oracle.allOk force mid s).1.buffer = mid ∧
    (s.buffer = [] → (flushBuffer Oracle.allOk force mid s).1.dir = s.dir) ∧
    (s.buffer ≠ [] →
      fileLines (flushBuffer Oracle.allOk force mid s).1.dir (.idx 0) =
        fileLines (openAppend (rotateLogFiles s.cfg Oracle.allOk s.dir
          s.logFileName).dir (.idx 0)) (.idx 0) ++ s.buffer ∧
      fileSize (flushBuffer Oracle.allOk force mid s).1.dir (.idx 0) =
        fileSize (openAppend (rotateLogFiles s.cfg Oracle.allOk s.dir
          s.logFileName).dir (.idx 0)) (.idx 0)
          + (s.buffer.map fun l => l.utf8ByteSize + 1).sum ∧
      Ev.wrote s.buffer ∈ (flushBuffer Oracle.allOk force mid s).2) := by
  by_cases hb : s.buffer = []
  · refine ⟨?_, fun _ => ?_, fun hnb => absurd hb hnb⟩ <;>
      simp [flushBuffer, hb]
  · have hs := flush_success_spec s force mid hd hb
    refine ⟨?_, fun he => absurd he hb, fun _ => ⟨?_, ?_, ?_⟩⟩
    · rw [hs.1]
    · rw [hs.1]
      exact fileLines_appendLines _ _ _ (openAppend_hasName _ _)
    · rw [hs.1]
      exact fileSize_appendLines _ _ _ (openAppend_hasName _ _)
    · rw [hs.2]
      simp

def wcfg : Config := ⟨10, 102400, true, true, .debug, .debug, "", true, false⟩

def wstate1 : LogState := ⟨wcfg, [⟨.idx 0, 0, []⟩], some (.idx 0), ["a", "b"]⟩

theorem C1_flush_writes_exactly_witness :
    wstate1.cfg.dirSet = true ∧
      (flushBuffer Oracle.allOk false [] wstate1).1.buffer = [] ∧
      fileLines (flushBuffer Oracle.allOk false [] wstate1).1.dir (.idx 0) =
        ["a", "b"] := by
  refine ⟨rfl, (C1_flush_writes_exactly wstate1 false [] rfl).1, ?_⟩
  have h := ((C1_flush_writes_exactly wstate1 false [] rfl).2.2
    (by decide)).1
  rw [h]
  decide

/-- Claim C4: when a flush fails at the rotation stage or at the
file-open stage, the drained batch is requeued in front of whatever was
enqueued meanwhile, in original order; the next successful flush then
writes exactly that failed batch followed by the lines enqueued
afterwards, in order, with no line lost (the configuration is unchanged
by the failed flush). -/
theorem C4_requeue_preserves_order (s : LogState) (o : Oracle)
    (force force2 : Bool) (mid mid2 : List String)
    (hd : s.cfg.dirSet = true) (hb : s.buffer ≠ [])
    (hfail : (rotateLogFiles s.cfg o s.dir s.logFileName).ok = false ∨
      o.openOk = false) :
    (flushBuffer o force mid s).1.buffer = s.buffer ++ mid ∧
    (flushBuffer o force mid s).1.cfg = s.cfg ∧
    (flushBuffer Oracle.allOk force2 mid2
      (flushBuffer o force mid s).1).1.buffer = mid2 ∧
    fileLines (flushBuffer Oracle.allOk force2 mid2
        (flushBuffer o force mid s).1).1.dir (.idx 0) =
      fileLines (openAppend (rotateLogFiles s.cfg Oracle.allOk
          (flushBuffer o force mid s).1.dir
          (flushBuffer o force mid s).1.logFileName).dir (.idx 0)) (.idx 0)
        ++ (s.buffer ++ mid) ∧
    Ev.wrote (s.buffer ++ mid) ∈
      (flushBuffer Oracle.allOk force2 mid2 (flushBuffer o force mid s).1).2 := by
  have h1 := flush_fail_spec s o force mid hb hfail
  have hb1 : (flushBuffer o force mid s).1.buffer = s.buffer ++ mid := by
    rw [h1]
  have hcfg1 : (flushBuffer o force mid s).1.cfg = s.cfg := by rw [h1]
  have hb1ne : (flushBuffer o force mid s).1.buffer ≠ [] := by
    rw [hb1]
    exact fun hc => hb (List.append_eq_nil.mp hc).1
  have hd1 : (flushBuffer o force mid s).1.cfg.dirSet = true := by
    rw [hcfg1]; exact hd
  have hs := flush_success_spec (flushBuffer o force mid s).1 force2 mid2
    hd1 hb1ne
  refine ⟨hb1, hcfg1, ?_, ?_, ?_⟩
  · rw [hs.1]
  · have hdir2 : (flushBuffer Oracle.allOk force2 mid2
        (flushBuffer o force mid s).1).1.dir =
        appendLines (openAppend (rotateLogFiles
            (flushBuffer o force mid s).1.cfg Oracle.allOk
            (flushBuffer o force mid s).1.dir
            (flushBuffer o force mid s).1.logFileName).dir (.idx 0))
          (.idx 0) (flushBuffer o force mid s).1.buffer := by
      rw [hs.1]
    rw [hdir2, hcfg1,
      fileLines_appendLines _ _ _ (openAppend_hasName _ _), hb1]
  · rw [hs.2, ← hb1]
    simp

def wstate4 : LogState := ⟨wcfg, [⟨.idx 0, 0, []⟩], some (.idx 0), ["x"]⟩

theorem C4_requeue_preserves_order_witness :
    wstate4.cfg.dirSet = true ∧ wstate4.buffer ≠ [] ∧
      (⟨true, true, true, false⟩ : Oracle).openOk = false ∧
      (flushBuffer ⟨true, true, true, false⟩ false ["y"] wstate4).1.buffer =
        ["x", "y"] ∧
      Ev.wrote ["x", "y"] ∈ (flushBuffer Oracle.allOk true []
        (flushBuffer ⟨true, true, true, false⟩ false ["y"] wstate4).1).2 := by
  have h := C4_requeue_preserves_order wstate4 ⟨true, true, true, false⟩
    false true ["y"] [] rfl (by decide) (Or.inr rfl)
  exact ⟨rfl, by decide, rfl, h.1, h.2.2.2.2⟩

theorem flush_tr_count_sendLog (s : LogState) (o : Oracle) (force : Bool)
    (mid : List String) :
    ((flushBuffer o force mid s).2.countP fun e =>
      decide (e = Ev.sendLogEv)) = 0 := by
  apply List.countP_eq_zero.mpr
  intro e he
  have hfs := flush_tr_fs s o force mid e he
  simp only [decide_eq_true_eq]
  rintro rfl
  simp [isFsEv] at hfs

theorem flush_tr_no_flushCall (s : LogState) (o : Oracle) (force : Bool)
    (mid : List String) (b : Bool) :
    Ev.flushCall b ∉ (flushBuffer o force mid s).2 := by
  intro he
  have hfs := flush_tr_fs s o force mid _ he
  simp [isFsEv] at hfs

theorem consoleTrace_consoleOnly (cfg : Config) (type : MsgType)
    (category rawMsg fm : String) :
    ∀ e ∈ consoleTrace cfg type category rawMsg fm,
      ∃ str, e = Ev.consoleOut str := by
  intro e he
  unfold consoleTrace at he
  split at he
  · split at he
    · simp only [List.mem_singleton] at he
      exact ⟨_, he⟩
    · simp at he
  · split at he
    · simp only [List.mem_singleton] at he
      exact ⟨_, he⟩
    · simp at he

theorem consoleTrace_count_sendLog (cfg : Config) (type : MsgType)
    (category rawMsg fm : String) :
    ((consoleTrace cfg type category rawMsg fm).countP fun e =>
      decide (e = Ev.sendLogEv)) = 0 := by
  apply List.countP_eq_zero.mpr
  intro e he
  rcases consoleTrace_consoleOnly cfg type category rawMsg fm e he with ⟨str, rfl⟩
  simp

theorem consoleTrace_no_flushCall (cfg : Config) (type : MsgType)
    (category rawMsg fm : String) (b : Bool) :
    Ev.flushCall b ∉ consoleTrace cfg type category rawMsg fm := by
  intro he
  rcases consoleTrace_consoleOnly cfg type category rawMsg fm _ he with ⟨str, hs⟩
  simp at hs

theorem messageHandler_nonfatal_eq (o : Oracle) (type : MsgType) (r : Record)
    (s : LogState) (hnf : type ≠ .fatal)
    (hnd : ¬(s.cfg.ndebug = true ∧ type = .debug)) :
    messageHandler o type r s =
      (if cleanPasses s.cfg r.category then
        if levelGreaterOrEqual type s.cfg.minOutFileLevel then
          if type = .critical then
            ((flushBuffer o true []
                { s with buffer := s.buffer ++ [formatted type r] }).1,
             consoleTrace s.cfg type r.category r.msg (formatted type r)
               ++ [Ev.enq (formatted type r), Ev.flushCall true]
               ++ (flushBuffer o true []
                   { s with buffer := s.buffer ++ [formatted type r] }).2
               ++ [Ev.sendLogEv])
          else if s.cfg.bufferEnabled = false then
            ((flushBuffer o false []
                { s with buffer := s.buffer ++ [formatted type r] }).1,
             consoleTrace s.cfg type r.category r.msg (formatted type r)
               ++ [Ev.enq (formatted type r), Ev.flushCall false]
               ++ (flushBuffer o false []
                   { s with buffer := s.buffer ++ [formatted type r] }).2
               ++ [Ev.sendLogEv])
          else ({ s with buffer := s.buffer ++ [formatted type r] },
            consoleTrace s.cfg type r.category r.msg (formatted type r)
              ++ [Ev.enq (formatted type r), Ev.sendLogEv])
        else (s, consoleTrace s.cfg type r.category r.msg (formatted type r)
          ++ [Ev.sendLogEv])
      else (s, consoleTrace s.cfg type r.category r.msg (formatted type r))) := by
  cases type with
  | fatal => exact absurd rfl hnf
  | debug => rw [messageHandler, if_neg hnd]
  | info => rw [messageHandler, if_neg (by simp)]
  | warning => rw [messageHandler, if_neg (by simp)]
  | critical => rw [messageHandler, if_neg (by simp)]

def cxCfg5 : Config := ⟨10, 102400, true, true, .debug, .debug, "CI", false, false⟩

def cxRec5 : Record := ⟨"[t]", "CI", "a.cpp", "f()", "boom"⟩

def cxState5 : LogState := ⟨cxCfg5, [⟨.idx 0, 0, []⟩], some (.idx 0), []⟩

/-- Claim C5 as stated is false on the code: a Fatal record is not
written regardless of the clean-log-category settings.  With clean
category "CI", writeToFile disabled, and a record of category "CI", the
handler neither enqueues the formatted line nor calls flushBuffer(true):
the trace holds only the console print and the fatal termination, and the
buffer stays empty. -/
theorem C5_fatal_clean_suppressed_cx :
    (messageHandler Oracle.allOk .fatal cxRec5 cxState5).2 =
      [Ev.consoleOut "[FTL] boom", Ev.fatalStop] ∧
    Ev.flushCall true ∉ (messageHandler Oracle.allOk .fatal cxRec5 cxState5).2 ∧
    Ev.enq (formatted .fatal cxRec5) ∉
      (messageHandler Oracle.allOk .fatal cxRec5 cxState5).2 ∧
    (messageHandler Oracle.allOk .fatal cxRec5 cxState5).1.buffer = [] := by
  decide

/-- Claim C5 amended: for every Fatal record for which the clean-category
restriction does not forbid writing (no clean category, or a different
category, or writeToFile enabled), and regardless of the configured
minimum output and file levels, the formatted line is enqueued and the
synchronous durable flushBuffer(true) completes - its full state effect
is applied - before the observer call, the console print and the
fatal-termination event; when the restriction applies (clean category
set, matching category, writeToFile disabled) the record is deliberately
not enqueued. -/
theorem C5_fatal_durable_amended (o : Oracle) (r : Record) (s : LogState)
    (hclean : cleanPasses s.cfg r.category = true) :
    (messageHandler o .fatal r s).2 =
      Ev.enq (formatted .fatal r) :: Ev.flushCall true ::
        ((flushBuffer o true []
            { s with buffer := s.buffer ++ [formatted .fatal r] }).2
          ++ [Ev.sendLogEv,
              Ev.consoleOut (if s.cfg.cleanLogCategory.isEmpty then
                consoleLine .fatal (formatted .fatal r)
              else "[FTL] " ++ r.msg),
              Ev.fatalStop]) ∧
    (∀ e ∈ (flushBuffer o true []
        { s with buffer := s.buffer ++ [formatted .fatal r] }).2,
      isFsEv e = true) ∧
    (messageHandler o .fatal r s).1 =
      (flushBuffer o true []
        { s with buffer := s.buffer ++ [formatted .fatal r] }).1 := by
  refine ⟨?_, flush_tr_fs _ _ _ _, ?_⟩ <;>
    simp [messageHandler, hclean]

def wrec : Record := ⟨"[t]", "app", "a.cpp", "f()", "m"⟩

def wstate5 : LogState := ⟨wcfg, [⟨.idx 0, 0, []⟩], some (.idx 0), []⟩

theorem C5_fatal_durable_amended_witness :
    cleanPasses wstate5.cfg wrec.category = true ∧
      (messageHandler Oracle.allOk .fatal wrec wstate5).1 =
        (flushBuffer Oracle.allOk true []
          { wstate5 with buffer := wstate5.buffer ++ [formatted .fatal wrec] }).1 :=
  ⟨by decide, (C5_fatal_durable_amended Oracle.allOk wrec wstate5 (by decide)).2.2⟩

def cxCfg7 : Config := ⟨10, 102400, true, false, .debug, .debug, "", true, false⟩

def cxRec7 : Record := ⟨"[t]", "app", "a.cpp", "f()", "warn"⟩

def cxState7 : LogState := ⟨cxCfg7, [⟨.idx 0, 0, []⟩], some (.idx 0), []⟩

/-- Claim C7 as stated is false on the code: with buffering disabled, a
passing non-critical record is followed by flushBuffer(false), not by the
claimed forced durable flushBuffer(true): for a Warning record passing
the minimum file level the trace holds a flushCall with force unset and
no flushCall with force set (and hence no durable-flush event). -/
theorem C7_unbuffered_force_cx :
    cxState7.cfg.bufferEnabled = false ∧
    levelGreaterOrEqual .warning cxState7.cfg.minOutFileLevel = true ∧
    Ev.flushCall false ∈ (messageHandler Oracle.allOk .warning cxRec7 cxState7).2 ∧
    Ev.flushCall true ∉ (messageHandler Oracle.allOk .warning cxRec7 cxState7).2 ∧
    Ev.durable ∉ (messageHandler Oracle.allOk .warning cxRec7 cxState7).2 := by
  decide

/-- Claim C7 amended: when buffering is disabled, every non-critical,
non-fatal record that passes the minimum file level and the clean
condition is, immediately after its enqueue, followed by a synchronous
flushBuffer(false): a synchronous but not explicitly durable flush.  The
trace is the console output, the enqueue, the flushCall with force unset
and the flush's own events, then the observer call; no forced flush
happens, and with every file-system operation succeeding the formatted
line is on disk in the active file when the handler returns. -/
theorem C7_unbuffered_sync_flush_amended (type : MsgType) (r : Record)
    (s : LogState) (hd : s.cfg.dirSet = true)
    (hbuf : s.cfg.bufferEnabled = false)
    (hclean : cleanPasses s.cfg r.category = true)
    (hlvl : levelGreaterOrEqual type s.cfg.minOutFileLevel = true)
    (hnc : type ≠ .critical) (hnf : type ≠ .fatal)
    (hnd : ¬(s.cfg.ndebug = true ∧ type = .debug)) :
    (messageHandler Oracle.allOk type r s).2 =
      consoleTrace s.cfg type r.category r.msg (formatted type r)
        ++ [Ev.enq (formatted type r), Ev.flushCall false]
        ++ (flushBuffer Oracle.allOk false []
            { s with buffer := s.buffer ++ [formatted type r] }).2
        ++ [Ev.sendLogEv] ∧
    Ev.flushCall true ∉ (messageHandler Oracle.allOk type r s).2 ∧
    fileLines (messageHandler Oracle.allOk type r s).1.dir (.idx 0) =
      fileLines (openAppend (rotateLogFiles s.cfg Oracle.allOk s.dir
        s.logFileName).dir (.idx 0)) (.idx 0)
        ++ (s.buffer ++ [formatted type r]) := by
  have heq := messageHandler_nonfatal_eq Oracle.allOk type r s hnf hnd
  rw [if_pos hclean, if_pos hlvl, if_neg hnc, if_pos hbuf] at heq
  have hb1 : ({ s with buffer := s.buffer ++ [formatted type r] }).buffer ≠ [] := by
    simp
  have hs := flush_success_spec { s with buffer := s.buffer ++ [formatted type r] }
    false [] hd hb1
  refine ⟨?_, ?_, ?_⟩
  · rw [heq]
  · rw [heq]
    simp only [List.append_assoc, List.mem_append]
    push_neg
    refine ⟨consoleTrace_no_flushCall _ _ _ _ _ _, ?_, ?_, ?_⟩
    · simp
    · exact flush_tr_no_flushCall _ _ _ _ _
    · simp
  · rw [heq]
    have hdir : (flushBuffer Oracle.allOk false []
        { s with buffer := s.buffer ++ [formatted type r] }).1.dir =
        appendLines (openAppend (rotateLogFiles s.cfg Oracle.allOk s.dir
          s.logFileName).dir (.idx 0)) (.idx 0)
          (s.buffer ++ [formatted type r]) := by
      rw [hs.1]
    simp only [hdir]
    exact fileLines_appendLines _ _ _ (openAppend_hasName _ _)

def wstate7 : LogState :=
  ⟨{ wcfg with bufferEnabled := false }, [⟨.idx 0, 0, []⟩], some (.idx 0), []⟩

theorem C7_unbuffered_sync_flush_amended_witness :
    (wstate7.cfg.dirSet = true ∧ wstate7.cfg.bufferEnabled = false ∧
      cleanPasses wstate7.cfg wrec.category = true ∧
      levelGreaterOrEqual .info wstate7.cfg.minOutFileLevel = true) ∧
    fileLines (messageHandler Oracle.allOk .info wrec wstate7).1.dir (.idx 0) =
      ["[t] [INF] [app] m"] := by
  have h := C7_unbuffered_sync_flush_amended .info wrec wstate7 rfl rfl
    (by decide) (by decide) (by decide) (by decide) (by simp)
  refine ⟨⟨rfl, rfl, by decide, by decide⟩, ?_⟩
  rw [h.2.2]
  decide

def cxCfg10 : Config := ⟨10, 102400, true, true, .debug, .debug, "", true, true⟩

def cxState10 : LogState := ⟨cxCfg10, [⟨.idx 0, 0, []⟩], some (.idx 0), []⟩

/-- Claim C10 as stated is false on the code when the NDEBUG build flag
is active: a Debug record is then dropped at the top of messageHandler,
so the sendLog observer is not invoked even though no clean-category
restriction applies: the whole trace is empty. -/
theorem C10_observer_ndebug_cx :
    cleanPasses cxState10.cfg cxRec7.category = true ∧
    cxState10.cfg.ndebug = true ∧
    (messageHandler Oracle.allOk .debug cxRec7 cxState10).2 = [] := by
  decide

/-- Claim C10 amended: for every non-Fatal record that is not a Debug
record suppressed by an NDEBUG build, whenever the clean-category
write-to-file restriction does not apply, the sendLog observer is invoked
exactly once - in particular even when the record's level is below the
minimum file level, which gates only the enqueue-and-flush, not the
observer notification. -/
theorem C10_observer_once_amended (o : Oracle) (type : MsgType) (r : Record)
    (s : LogState) (hnf : type ≠ .fatal)
    (hnd : ¬(s.cfg.ndebug = true ∧ type = .debug))
    (hclean : cleanPasses s.cfg r.category = true) :
    ((messageHandler o type r s).2.countP fun e =>
      decide (e = Ev.sendLogEv)) = 1 := by
  rw [messageHandler_nonfatal_eq o type r s hnf hnd, if_pos hclean]
  by_cases hlvl : levelGreaterOrEqual type s.cfg.minOutFileLevel = true
  · rw [if_pos hlvl]
    by_cases hcrit : type = .critical
    · rw [if_pos hcrit]
      simp [List.countP_append, consoleTrace_count_sendLog,
        flush_tr_count_sendLog, List.countP_cons]
    · rw [if_neg hcrit]
      by_cases hbuf : s.cfg.bufferEnabled = false
      · rw [if_pos hbuf]
        simp [List.countP_append, consoleTrace_count_sendLog,
          flush_tr_count_sendLog, List.countP_cons]
      · rw [if_neg hbuf]
        simp [List.countP_append, consoleTrace_count_sendLog,
          List.countP_cons]
  · rw [if_neg hlvl]
    simp [List.countP_append, consoleTrace_count_sendLog, List.countP_cons]

def wstate10 : LogState :=
  ⟨{ wcfg with minOutFileLevel := .critical }, [⟨.idx 0, 0, []⟩],
    some (.idx 0), []⟩

theorem C10_observer_once_amended_witness :
    (cleanPasses wstate10.cfg wrec.category = true ∧
      levelGreaterOrEqual .info wstate10.cfg.minOutFileLevel = false) ∧
    ((messageHandler Oracle.allOk .info wrec wstate10).2.countP fun e =>
      decide (e = Ev.sendLogEv)) = 1 :=
  ⟨⟨by decide, by decide⟩,
    C10_observer_once_amended Oracle.allOk .info wrec wstate10
      (by decide) (by simp) (by decide)⟩

/-- Occurrences of a name within the matching (glob-visible) part of a
name list; the accounting quantity of the rotation-pass invariants. -/
def cmN (l : List FileName) (a : FileName) : Nat :=
  if isMatch a then cntN l a else 0

theorem cntN_nil (a : FileName) : cntN [] a = 0 := rfl

theorem cntN_cons (x : FileName) (l : List FileName) (a : FileName) :
    cntN (x :: l) a = cntN l a + (if x = a then 1 else 0) := by
  simp [cntN, List.countP_cons]

theorem cntN_append (l m : List FileName) (a : FileName) :
    cntN (l ++ m) a = cntN l a + cntN m a := by
  simp [cntN, List.countP_append]

theorem cntN_reverse (l : List FileName) (a : FileName) :
    cntN l.reverse a = cntN l a := by
  simp [cntN, List.countP_reverse]

theorem cntN_eq_zero_iff (l : List FileName) (a : FileName) :
    cntN l a = 0 ↔ a ∉ l := by
  constructor
  · intro h ha
    induction l with
    | nil => simp at ha
    | cons x l ih =>
      rw [cntN_cons] at h
      rcases List.mem_cons.mp ha with rfl | ha
      · simp at h
      · exact ih (by omega) ha
  · exact cntN_eq_zero_of_not_mem

theorem cntN_pos_of_mem {l : List FileName} {a : FileName} (h : a ∈ l) :
    1 ≤ cntN l a := by
  by_contra hc
  exact (cntN_eq_zero_iff l a).mp (by omega) h

theorem cnt_filter (p : FileName → Bool) (l : List FileName) (a : FileName) :
    cntN (l.filter p) a = if p a then cntN l a else 0 := by
  induction l with
  | nil => simp [cntN]
  | cons x l ih =>
    by_cases hx : p x = true
    · rw [List.filter_cons_of_pos hx, cntN_cons, cntN_cons, ih]
      by_cases hxa : x = a
      · subst hxa
        simp [hx]
      · simp [hxa]
    · rw [List.filter_cons_of_neg hx, cntN_cons, ih]
      by_cases hxa : x = a
      · subst hxa
        simp only [Bool.not_eq_true] at hx
        simp [hx]
      · simp [hxa]

theorem cntN_singleton (x a : FileName) :
    cntN [x] a = if x = a then 1 else 0 := by
  rw [show ([x] : List FileName) = x :: [] from rfl, cntN_cons, cntN_nil]
  omega

theorem cnt_renMap_src (l : List FileName) (s t : FileName) (hst : s ≠ t) :
    cntN (l.map fun x => if x = s then t else x) s = 0 := by
  induction l with
  | nil => rfl
  | cons x l ih =>
    rw [List.map_cons, cntN_cons, ih]
    by_cases hxs : x = s
    · rw [if_pos hxs, if_neg (Ne.symm hst)]
    · rw [if_neg hxs, if_neg hxs]

theorem cnt_renMap_dst (l : List FileName) (s t : FileName) (hst : s ≠ t) :
    cntN (l.map fun x => if x = s then t else x) t = cntN l t + cntN l s := by
  induction l with
  | nil => rfl
  | cons x l ih =>
    rw [List.map_cons, cntN_cons, ih, cntN_cons, cntN_cons]
    by_cases hxs : x = s
    · rw [if_pos hxs, if_pos rfl, if_pos hxs, if_neg (hxs ▸ hst)]
      omega
    · rw [if_neg hxs, if_neg hxs]
      omega

theorem cnt_renMap_other (l : List FileName) (s t a : FileName)
    (has : a ≠ s) (hat : a ≠ t) :
    cntN (l.map fun x => if x = s then t else x) a = cntN l a := by
  induction l with
  | nil => rfl
  | cons x l ih =>
    rw [List.map_cons, cntN_cons, ih, cntN_cons]
    by_cases hxs : x = s
    · rw [if_pos hxs, if_neg (Ne.symm hat), if_neg (hxs ▸ Ne.symm has)]
    · rw [if_neg hxs]

theorem names_filterP (q : FileName → Bool) (d : Dir) :
    names (d.filter fun f => q f.name) = (names d).filter q := by
  induction d with
  | nil => rfl
  | cons f d ih =>
    show names (List.filter (fun f => q f.name) (f :: d)) =
      List.filter q (f.name :: names d)
    rw [List.filter_cons, List.filter_cons]
    by_cases hq : q f.name = true
    · rw [if_pos hq, if_pos hq]
      show f.name :: names (d.filter fun f => q f.name) =
        f.name :: List.filter q (names d)
      rw [ih]
    · rw [if_neg hq, if_neg hq]
      exact ih

theorem names_removeName (d : Dir) (n : FileName) :
    names (removeName d n) = (names d).filter fun x => !decide (x = n) := by
  unfold removeName
  exact names_filterP (fun x => !decide (x = n)) d

theorem names_renameIn (d : Dir) (s t : FileName) :
    names (renameIn d s t) = (names d).map fun x => if x = s then t else x := by
  unfold renameIn names
  rw [List.map_map, List.map_map]
  apply List.map_congr_left
  intro f _
  by_cases hf : f.name = s <;> simp [hf]

theorem names_truncCreate (d : Dir) (n : FileName) :
    names (truncCreate d n) =
      n :: (names d).filter fun x => !decide (x = n) := by
  show n :: names (removeName d n) = _
  rw [names_removeName]

theorem names_take (d : Dir) (n : Nat) :
    names (d.take n) = (names d).take n := by
  simp [names, List.map_take]

theorem names_append (d e : Dir) : names (d ++ e) = names d ++ names e := by
  simp [names]

theorem cmN_cons (x : FileName) (l : List FileName) (a : FileName) :
    cmN (x :: l) a = cmN [x] a + cmN l a := by
  unfold cmN
  rw [cntN_cons, cntN_cons, cntN_nil]
  split <;> omega

theorem renameIn_cnt_le_one (d : Dir) (s t : FileName) (hst : s ≠ t)
    (hnd : ∀ a, cntN (names d) a ≤ 1) (h0 : cntN (names d) t = 0) :
    ∀ a, cntN (names (renameIn d s t)) a ≤ 1 := by
  intro a
  rw [names_renameIn]
  by_cases hat : a = t
  · subst hat
    rw [cnt_renMap_dst _ _ _ hst, h0]
    have := hnd s
    omega
  · by_cases has : a = s
    · subst has
      rw [cnt_renMap_src _ _ _ hst]
      omega
    · rw [cnt_renMap_other _ _ _ _ has hat]
      exact hnd a

theorem renameIn_cm_step (d : Dir) (s t : FileName) (hst : s ≠ t)
    (h1 : cntN (names d) s = 1) (h0 : cntN (names d) t = 0) (a : FileName) :
    cmN (names (renameIn d s t)) a + cmN [s] a =
      cmN (names d) a + cmN [t] a := by
  unfold cmN
  rw [names_renameIn, cntN_singleton, cntN_singleton]
  by_cases hm : isMatch a = true
  · rw [if_pos hm, if_pos hm, if_pos hm, if_pos hm]
    by_cases hat : a = t
    · subst hat
      rw [cnt_renMap_dst _ _ _ hst, h0, h1, if_neg hst, if_pos rfl]
    · by_cases has : a = s
      · subst has
        rw [cnt_renMap_src _ _ _ hst, h1, if_pos rfl,
          if_neg fun h => hat h.symm]
      · rw [cnt_renMap_other _ _ _ _ has hat,
          if_neg fun h => has h.symm, if_neg fun h => hat h.symm]
  · rw [if_neg hm, if_neg hm, if_neg hm, if_neg hm]


theorem failFree_append (t1 t2 : List Ev) :
    failFree (t1 ++ t2) = (failFree t1 && failFree t2) := by
  simp [failFree, List.all_append]

theorem tryRemoveP_success (o : Oracle) (d : Dir) (n : FileName)
    (hff : failFree (tryRemoveP o d n).tr = true) :
    (tryRemoveP o d n).dir = removeName d n := by
  by_cases hc : (o.removeOk && hasName d n) = true
  · unfold tryRemoveP
    rw [if_pos hc]
  · unfold tryRemoveP at hff
    rw [if_neg hc] at hff
    simp [failFree, isFailEv] at hff

theorem tryRenameP_success (o : Oracle) (d : Dir) (src dst : FileName)
    (hff : failFree (tryRenameP o d src dst).tr = true) :
    (tryRenameP o d src dst).dir = renameIn d src dst ∧
      (tryRenameP o d src dst).ok = true ∧
      hasName d src = true ∧ hasName d dst = false := by
  by_cases hc : (o.renameOk && hasName d src && !hasName d dst) = true
  · have hcond := hc
    simp only [Bool.and_eq_true, Bool.not_eq_true'] at hcond
    unfold tryRenameP
    rw [if_pos hc]
    exact ⟨rfl, rfl, hcond.1.2, hcond.2⟩
  · unfold tryRenameP at hff
    rw [if_neg hc] at hff
    simp [failFree, isFailEv] at hff

theorem tryTouchP_success (o : Oracle) (d : Dir) (n : FileName)
    (hff : failFree (tryTouchP o d n).tr = true) :
    (tryTouchP o d n).dir = truncCreate d n ∧ (tryTouchP o d n).ok = true := by
  by_cases hc : o.touchOk = true
  · unfold tryTouchP
    rw [if_pos hc]
    exact ⟨rfl, rfl⟩
  · unfold tryTouchP at hff
    rw [if_neg hc] at hff
    simp [failFree, isFailEv] at hff

theorem hasName_iff_cnt (d : Dir) (n : FileName) :
    hasName d n = true ↔ 1 ≤ cntN (names d) n := by
  constructor
  · intro h
    rcases List.any_eq_true.mp h with ⟨f, hf, hfn⟩
    simp only [decide_eq_true_eq] at hfn
    exact cntN_pos_of_mem (by
      subst hfn
      exact List.mem_map_of_mem (·.name) hf)
  · intro h
    by_contra hc
    simp only [Bool.not_eq_true] at hc
    have : n ∉ names d := by
      intro hm
      rcases List.mem_map.mp hm with ⟨f, hf, hfn⟩
      have : hasName d n = true :=
        List.any_eq_true.mpr ⟨f, hf, by simp [hfn]⟩
      simp [this] at hc
    have := cntN_eq_zero_of_not_mem this
    omega

theorem removeAll_cnt (o : Oracle) (ns : List FileName) (d : Dir)
    (hff : failFree (removeAll o d ns).tr = true) (a : FileName) :
    cntN (names (removeAll o d ns).dir) a =
      if a ∈ ns then 0 else cntN (names d) a := by
  induction ns generalizing d with
  | nil => simp [removeAll]
  | cons n ns ih =>
    have hsplit : failFree (tryRemoveP o d n).tr = true ∧
        failFree (removeAll o (tryRemoveP o d n).dir ns).tr = true := by
      have : failFree (removeAll o d (n :: ns)).tr =
          (failFree (tryRemoveP o d n).tr &&
           failFree (removeAll o (tryRemoveP o d n).dir ns).tr) := by
        show failFree ((tryRemoveP o d n).tr ++
          (removeAll o (tryRemoveP o d n).dir ns).tr) = _
        exact failFree_append _ _
      rw [this] at hff
      simp only [Bool.and_eq_true] at hff
      exact hff
    have hstep := tryRemoveP_success o d n hsplit.1
    have hrec := ih (tryRemoveP o d n).dir hsplit.2
    show cntN (names (removeAll o (tryRemoveP o d n).dir ns).dir) a = _
    rw [hrec, hstep, names_removeName, cnt_filter]
    by_cases han : a = n
    · subst han
      simp
    · by_cases hans : a ∈ ns
      · simp [hans, han]
      · simp [hans, han, List.mem_cons]

theorem removeAll_nodup (o : Oracle) (ns : List FileName) (d : Dir)
    (hff : failFree (removeAll o d ns).tr = true)
    (hnd : ∀ a, cntN (names d) a ≤ 1) :
    ∀ a, cntN (names (removeAll o d ns).dir) a ≤ 1 := by
  intro a
  rw [removeAll_cnt o ns d hff a]
  split
  · omega
  · exact hnd a

theorem hasName_false_cnt {d : Dir} {n : FileName}
    (h : hasName d n = false) : cntN (names d) n = 0 := by
  by_contra hc
  have h1 : 1 ≤ cntN (names d) n := by omega
  rw [(hasName_iff_cnt d n).mpr h1] at h
  simp at h

theorem isIdx_exists {n : FileName} (h : isIdx n = true) :
    ∃ k, n = FileName.idx k := by
  cases n <;> simp [isIdx] at h ⊢

theorem tempAux_fl_length (o : Oracle) :
    ∀ (fl : List LogFile) (d : Dir), (tempAux o d fl).fl.length = fl.length := by
  intro fl
  induction fl with
  | nil => intro d; rfl
  | cons f fl ih =>
    intro d
    show ((if (tryRenameP o d f.name (tempName f.name)).ok then
      { f with name := tempName f.name } else f) ::
      (tempAux o (tryRenameP o d f.name (tempName f.name)).dir fl).fl).length = _
    simp [ih]

theorem tempAux_main (o : Oracle) : ∀ (fl : List LogFile) (d : Dir),
    failFree (tempAux o d fl).tr = true →
    (∀ a, cntN (names d) a ≤ 1) →
    (∀ f ∈ fl, isIdx f.name = true) →
    (∀ a, cntN (names (tempAux o d fl).dir) a ≤ 1) ∧
    (∀ a, cmN (names (tempAux o d fl).dir) a + cmN (names fl) a =
      cmN (names d) a + cmN (names (tempAux o d fl).fl) a) := by
  intro fl
  induction fl with
  | nil =>
    intro d hff hnd hidx
    exact ⟨hnd, fun a => rfl⟩
  | cons f fl ih =>
    intro d hff hnd hidx
    have hffs : failFree (tryRenameP o d f.name (tempName f.name)).tr = true ∧
        failFree (tempAux o (tryRenameP o d f.name (tempName f.name)).dir fl).tr
          = true := by
      have heq : (tempAux o d (f :: fl)).tr =
          (tryRenameP o d f.name (tempName f.name)).tr ++
          (tempAux o (tryRenameP o d f.name (tempName f.name)).dir fl).tr := rfl
      rw [heq, failFree_append] at hff
      simp only [Bool.and_eq_true] at hff
      exact hff
    rcases tryRenameP_success o d f.name (tempName f.name) hffs.1 with
      ⟨hdir, hok, hsrc, hdst⟩
    rcases isIdx_exists (hidx f (by simp)) with ⟨k, hk⟩
    have hne : f.name ≠ tempName f.name := by
      rw [hk]; simp [tempName]
    have h1 : cntN (names d) f.name = 1 := by
      have := (hasName_iff_cnt d f.name).mp hsrc
      have := hnd f.name
      omega
    have h0 : cntN (names d) (tempName f.name) = 0 := hasName_false_cnt hdst
    have hnd1 : ∀ a, cntN (names (tryRenameP o d f.name
        (tempName f.name)).dir) a ≤ 1 := by
      rw [hdir]
      exact renameIn_cnt_le_one d _ _ hne hnd h0
    rcases ih (tryRenameP o d f.name (tempName f.name)).dir hffs.2 hnd1
      (fun g hg => hidx g (by simp [hg])) with ⟨hndo, hcm⟩
    have hstep : ∀ a, cmN (names (tryRenameP o d f.name
        (tempName f.name)).dir) a + cmN [f.name] a =
        cmN (names d) a + cmN [tempName f.name] a := by
      intro a
      rw [hdir]
      exact renameIn_cm_step d _ _ hne h1 h0 a
    have hdirEq : (tempAux o d (f :: fl)).dir =
        (tempAux o (tryRenameP o d f.name (tempName f.name)).dir fl).dir := rfl
    have hflEq : (tempAux o d (f :: fl)).fl =
        (if (tryRenameP o d f.name (tempName f.name)).ok then
          { f with name := tempName f.name } else f) ::
        (tempAux o (tryRenameP o d f.name (tempName f.name)).dir fl).fl := rfl
    constructor
    · rw [hdirEq]
      exact hndo
    · intro a
      rw [hdirEq, hflEq, if_pos hok]
      have e1 : cmN (names (f :: fl)) a = cmN [f.name] a + cmN (names fl) a := by
        show cmN (f.name :: names fl) a = _
        exact cmN_cons _ _ _
      have e2 : cmN (names ({ f with name := tempName f.name } ::
          (tempAux o (tryRenameP o d f.name (tempName f.name)).dir fl).fl)) a =
          cmN [tempName f.name] a + cmN (names (tempAux o
            (tryRenameP o d f.name (tempName f.name)).dir fl).fl) a := by
        show cmN (tempName f.name :: _) a = _
        exact cmN_cons _ _ _
      rw [e1, e2]
      have := hcm a
      have := hstep a
      omega

theorem linAux_fl_length (o : Oracle) :
    ∀ (fl : List LogFile) (d : Dir) (k : Nat),
      (linAux o d fl k).fl.length = fl.length := by
  intro fl
  induction fl with
  | nil => intro d k; rfl
  | cons f fl ih =>
    intro d k
    unfold linAux
    split
    · show (f :: (linAux o d fl (k - 1)).fl).length = _
      simp [ih]
    · show ((if (tryRenameP o d f.name (.idx k)).ok then
        { f with name := FileName.idx k } else f) ::
        (linAux o (tryRenameP o d f.name (.idx k)).dir fl (k - 1)).fl).length = _
      simp [ih]

theorem linAux_main (o : Oracle) : ∀ (fl : List LogFile) (d : Dir) (k : Nat),
    failFree (linAux o d fl k).tr = true →
    (∀ a, cntN (names d) a ≤ 1) →
    (∀ a, cntN (names (linAux o d fl k).dir) a ≤ 1) ∧
    (∀ a, cmN (names (linAux o d fl k).dir) a + cmN (names fl) a =
      cmN (names d) a + cmN (names (linAux o d fl k).fl) a) := by
  intro fl
  induction fl with
  | nil =>
    intro d k hff hnd
    exact ⟨hnd, fun a => rfl⟩
  | cons f fl ih =>
    intro d k hff hnd
    by_cases hskip : f.name = FileName.idx k
    · have hdirEq : (linAux o d (f :: fl) k).dir =
          (linAux o d fl (k - 1)).dir := by
        simp only [linAux, if_pos hskip]
      have hflEq : (linAux o d (f :: fl) k).fl =
          f :: (linAux o d fl (k - 1)).fl := by
        simp only [linAux, if_pos hskip]
      have htrEq : (linAux o d (f :: fl) k).tr = (linAux o d fl (k - 1)).tr := by
        simp only [linAux, if_pos hskip]
      rw [htrEq] at hff
      rcases ih d (k - 1) hff hnd with ⟨hndo, hcm⟩
      refine ⟨by rw [hdirEq]; exact hndo, ?_⟩
      intro a
      rw [hdirEq, hflEq]
      have e1 : cmN (names (f :: fl)) a = cmN [f.name] a + cmN (names fl) a := by
        show cmN (f.name :: names fl) a = _
        exact cmN_cons _ _ _
      have e2 : cmN (names (f :: (linAux o d fl (k - 1)).fl)) a =
          cmN [f.name] a + cmN (names (linAux o d fl (k - 1)).fl) a := by
        show cmN (f.name :: _) a = _
        exact cmN_cons _ _ _
      rw [e1, e2]
      have := hcm a
      omega
    · have hdirEq : (linAux o d (f :: fl) k).dir =
          (linAux o (tryRenameP o d f.name (.idx k)).dir fl (k - 1)).dir := by
        simp only [linAux, if_neg hskip]
      have hflEq : (linAux o d (f :: fl) k).fl =
          (if (tryRenameP o d f.name (.idx k)).ok then
            { f with name := FileName.idx k } else f) ::
          (linAux o (tryRenameP o d f.name (.idx k)).dir fl (k - 1)).fl := by
        simp only [linAux, if_neg hskip]
      have htrEq : (linAux o d (f :: fl) k).tr =
          (tryRenameP o d f.name (.idx k)).tr ++
          (linAux o (tryRenameP o d f.name (.idx k)).dir fl (k - 1)).tr := by
        simp only [linAux, if_neg hskip]
      rw [htrEq, failFree_append] at hff
      simp only [Bool.and_eq_true] at hff
      rcases tryRenameP_success o d f.name (.idx k) hff.1 with
        ⟨hdir, hok, hsrc, hdst⟩
      have h1 : cntN (names d) f.name = 1 := by
        have := (hasName_iff_cnt d f.name).mp hsrc
        have := hnd f.name
        omega
      have h0 : cntN (names d) (FileName.idx k) = 0 := hasName_false_cnt hdst
      have hnd1 : ∀ a, cntN (names (tryRenameP o d f.name (.idx k)).dir) a ≤ 1 := by
        rw [hdir]
        exact renameIn_cnt_le_one d _ _ hskip hnd h0
      rcases ih (tryRenameP o d f.name (.idx k)).dir (k - 1) hff.2 hnd1 with
        ⟨hndo, hcm⟩
      have hstep : ∀ a, cmN (names (tryRenameP o d f.name (.idx k)).dir) a +
          cmN [f.name] a = cmN (names d) a + cmN [FileName.idx k] a := by
        intro a
        rw [hdir]
        exact renameIn_cm_step d _ _ hskip h1 h0 a
      refine ⟨by rw [hdirEq]; exact hndo, ?_⟩
      intro a
      rw [hdirEq, hflEq, if_pos hok]
      have e1 : cmN (names (f :: fl)) a = cmN [f.name] a + cmN (names fl) a := by
        show cmN (f.name :: names fl) a = _
        exact cmN_cons _ _ _
      have e2 : cmN (names ({ f with name := FileName.idx k } ::
          (linAux o (tryRenameP o d f.name (.idx k)).dir fl (k - 1)).fl)) a =
          cmN [FileName.idx k] a +
          cmN (names (linAux o (tryRenameP o d f.name (.idx k)).dir
            fl (k - 1)).fl) a := by
        show cmN (FileName.idx k :: _) a = _
        exact cmN_cons _ _ _
      rw [e1, e2]
      have := hcm a
      have := hstep a
      omega

theorem linAux_names_idx (o : Oracle) : ∀ (fl : List LogFile) (d : Dir) (k : Nat),
    k = fl.length → failFree (linAux o d fl k).tr = true →
    ∀ g ∈ (linAux o d fl k).fl, ∃ j, g.name = FileName.idx (j + 1) := by
  intro fl
  induction fl with
  | nil =>
    intro d k hk hff g hg
    simp [linAux] at hg
  | cons f fl ih =>
    intro d k hk hff g hg
    by_cases hskip : f.name = FileName.idx k
    · have hflEq : (linAux o d (f :: fl) k).fl =
          f :: (linAux o d fl (k - 1)).fl := by
        simp only [linAux, if_pos hskip]
      have htrEq : (linAux o d (f :: fl) k).tr = (linAux o d fl (k - 1)).tr := by
        simp only [linAux, if_pos hskip]
      rw [htrEq] at hff
      rw [hflEq] at hg
      rcases List.mem_cons.mp hg with rfl | hg
      · refine ⟨fl.length, ?_⟩
        rw [hskip, hk]
        simp [List.length_cons]
      · exact ih d (k - 1) (by simp [hk]) hff g hg
    · have hflEq : (linAux o d (f :: fl) k).fl =
          (if (tryRenameP o d f.name (.idx k)).ok then
            { f with name := FileName.idx k } else f) ::
          (linAux o (tryRenameP o d f.name (.idx k)).dir fl (k - 1)).fl := by
        simp only [linAux, if_neg hskip]
      have htrEq : (linAux o d (f :: fl) k).tr =
          (tryRenameP o d f.name (.idx k)).tr ++
          (linAux o (tryRenameP o d f.name (.idx k)).dir fl (k - 1)).tr := by
        simp only [linAux, if_neg hskip]
      rw [htrEq, failFree_append] at hff
      simp only [Bool.and_eq_true] at hff
      rcases tryRenameP_success o d f.name (.idx k) hff.1 with ⟨_, hok, _, _⟩
      rw [hflEq, if_pos hok] at hg
      rcases List.mem_cons.mp hg with rfl | hg
      · refine ⟨fl.length, ?_⟩
        show FileName.idx k = _
        rw [hk]
        simp [List.length_cons]
      · exact ih (tryRenameP o d f.name (.idx k)).dir (k - 1)
          (by simp [hk]) hff.2 g hg

theorem insertSorted_perm (f : LogFile) (l : List LogFile) :
    (insertSorted f l).Perm (f :: l) := by
  induction l with
  | nil => exact List.Perm.refl _
  | cons g gs ih =>
    unfold insertSorted
    split
    · exact List.Perm.refl _
    · exact (ih.cons g).trans (List.Perm.swap f g gs)

theorem sortFiles_perm (l : List LogFile) : (sortFiles l).Perm l := by
  induction l with
  | nil => exact List.Perm.refl _
  | cons f fs ih => exact (insertSorted_perm f (sortFiles fs)).trans (ih.cons f)

theorem cntN_perm {l l' : List FileName} (h : l.Perm l') (a : FileName) :
    cntN l a = cntN l' a := h.countP_eq _

theorem names_perm {d e : Dir} (h : d.Perm e) : (names d).Perm (names e) :=
  h.map _

theorem cnt_scanSorted (d : Dir) (a : FileName) :
    cntN (names (scanSorted d)) a =
      if isIdx a then cntN (names d) a else 0 := by
  show cntN (names (sortFiles (d.filter fun f => isIdx f.name))) a = _
  rw [cntN_perm (names_perm (sortFiles_perm _)) a,
    names_filterP isIdx d, cnt_filter]

theorem isMatch_cases {a : FileName} (h : isMatch a = true) :
    isIdx a = true ∨ isJunk a = true := by
  cases a <;> simp [isIdx, isJunk, isMatch] at h ⊢

theorem mem_junkNames_iff (d : Dir) (a : FileName) :
    a ∈ junkNamesOf d ↔ a ∈ names d ∧ isJunk a = true := by
  show a ∈ names (d.filter fun f => isJunk f.name) ↔ _
  rw [names_filterP]
  simp [List.mem_filter]

theorem names_keptFiles (cfg : Nat) (d : Dir) :
    names (keptFiles cfg d) = (names (scanSorted d)).take cfg :=
  names_take _ _

theorem cnt_split_kept (cfg : Nat) (d : Dir) (a : FileName) :
    cntN (names (scanSorted d)) a =
      cntN (names (keptFiles cfg d)) a + cntN (droppedNames cfg d) a := by
  have hsplit : names (scanSorted d) =
      (names (scanSorted d)).take cfg ++ (names (scanSorted d)).drop cfg := by
    rw [List.take_append_drop]
  have hdn : cntN (droppedNames cfg d) a =
      cntN ((names (scanSorted d)).drop cfg) a := by
    unfold droppedNames
    rw [cntN_reverse]
    show cntN (names ((scanSorted d).drop cfg)) a = _
    rw [show names ((scanSorted d).drop cfg) =
      (names (scanSorted d)).drop cfg by simp [names, List.map_drop]]
  rw [names_keptFiles, hdn]
  calc cntN (names (scanSorted d)) a
      = cntN ((names (scanSorted d)).take cfg ++
          (names (scanSorted d)).drop cfg) a := by rw [← hsplit]
    _ = _ := cntN_append _ _ _

theorem mem_keptFiles_isIdx {cfg : Nat} {d : Dir} {f : LogFile}
    (h : f ∈ keptFiles cfg d) : isIdx f.name = true := by
  have h1 : f ∈ scanSorted d := (List.take_sublist _ _).subset h
  have h2 := (sortFiles_perm (d.filter fun g => isIdx g.name)).mem_iff.mp h1
  exact (List.mem_filter.mp h2).2

theorem mem_survivors_isIdx {cfg : Nat} {d : Dir} {f : LogFile}
    (h : f ∈ survivors cfg d) : isIdx f.name = true := by
  have hk : f ∈ keptFiles cfg d := by
    unfold survivors at h
    split at h
    · exact (List.dropLast_sublist _).subset h
    · exact h
  exact mem_keptFiles_isIdx hk

theorem getLast?_decomp {α : Type} : ∀ {l : List α} {x : α},
    l.getLast? = some x → l = l.dropLast ++ [x] := by
  intro l
  induction l with
  | nil => intro x h; simp at h
  | cons a t ih =>
    intro x h
    cases t with
    | nil =>
      simp [List.getLast?] at h
      subst h
      rfl
    | cons b t2 =>
      have h2 : (b :: t2).getLast? = some x := h
      have := ih h2
      show a :: (b :: t2) = (a :: b :: t2).dropLast ++ [x]
      rw [show (a :: b :: t2).dropLast = a :: (b :: t2).dropLast from rfl,
        List.cons_append, ← this]

theorem trim_setup (cfg : Nat) (o : Oracle) (d : Dir)
    (hnd : ∀ a, cntN (names d) a ≤ 1)
    (hf1 : failFree (removeAll o d (junkNamesOf d)).tr = true)
    (hf2 : failFree (removeAll o (removeAll o d (junkNamesOf d)).dir
      (droppedNames cfg d)).tr = true) :
    (∀ a, cntN (names (removeAll o (removeAll o d (junkNamesOf d)).dir
      (droppedNames cfg d)).dir) a ≤ 1) ∧
    (∀ a, cmN (names (removeAll o (removeAll o d (junkNamesOf d)).dir
      (droppedNames cfg d)).dir) a = cmN (names (keptFiles cfg d)) a) := by
  have hA := removeAll_cnt o (junkNamesOf d) d hf1
  have hndA := removeAll_nodup o (junkNamesOf d) d hf1 hnd
  have hB := removeAll_cnt o (droppedNames cfg d) _ hf2
  have hndB := removeAll_nodup o (droppedNames cfg d) _ hf2 hndA
  refine ⟨hndB, ?_⟩
  intro a
  unfold cmN
  by_cases hm : isMatch a = true
  · rw [if_pos hm, if_pos hm, hB a, hA a]
    have hsk := cnt_split_kept cfg d a
    rw [cnt_scanSorted] at hsk
    rcases isMatch_cases hm with hidx | hjunk
    · have hnj : a ∉ junkNamesOf d := by
        intro hmem
        have := (mem_junkNames_iff d a).mp hmem
        cases a <;> simp_all [isIdx, isJunk]
      rw [hidx] at hsk
      simp only [if_true] at hsk
      by_cases hdn : a ∈ droppedNames cfg d
      · rw [if_pos hdn]
        have h1 := cntN_pos_of_mem hdn
        have h2 := hnd a
        omega
      · rw [if_neg hdn, if_neg hnj]
        have h0 := cntN_eq_zero_of_not_mem hdn
        omega
    · have hni : isIdx a = false := by
        cases a <;> simp_all [isIdx, isJunk]
      rw [hni] at hsk
      simp only [Bool.false_eq_true, if_false] at hsk
      have hkept0 : cntN (names (keptFiles cfg d)) a = 0 := by omega
      rw [hkept0]
      by_cases hdn : a ∈ droppedNames cfg d
      · rw [if_pos hdn]
      · rw [if_neg hdn]
        by_cases hjn : a ∈ junkNamesOf d
        · rw [if_pos hjn]
        · rw [if_neg hjn]
          have : a ∉ names d := by
            intro hmem
            exact hjn ((mem_junkNames_iff d a).mpr ⟨hmem, hjunk⟩)
          exact cntN_eq_zero_of_not_mem this
  · rw [if_neg hm, if_neg hm]

theorem room_setup (cfg : Nat) (o : Oracle) (d2 : Dir) (d : Dir)
    (hnd2 : ∀ a, cntN (names d2) a ≤ 1)
    (hcm2 : ∀ a, cmN (names d2) a = cmN (names (keptFiles cfg d)) a)
    (hf3 : failFree (removeAll o d2 (roomName cfg d)).tr = true) :
    (∀ a, cntN (names (removeAll o d2 (roomName cfg d)).dir) a ≤ 1) ∧
    (∀ a, cmN (names (removeAll o d2 (roomName cfg d)).dir) a =
      cmN (names (survivors cfg d)) a) := by
  have hC := removeAll_cnt o (roomName cfg d) d2 hf3
  have hndC := removeAll_nodup o (roomName cfg d) d2 hf3 hnd2
  refine ⟨hndC, ?_⟩
  intro a
  by_cases hroom : cfg ≤ (keptFiles cfg d).length
  · rcases hlast : (keptFiles cfg d).getLast? with _ | last
    · have hkeptnil : keptFiles cfg d = [] := by
        cases hk : keptFiles cfg d with
        | nil => rfl
        | cons x t =>
          rw [hk] at hlast
          simp [List.getLast?_eq_none_iff] at hlast
      have hrn : roomName cfg d = [] := by
        unfold roomName
        rw [if_pos hroom, hlast]
        rfl
      have hsv : survivors cfg d = [] := by
        unfold survivors
        rw [if_pos hroom, hkeptnil]
        rfl
      have hcnt : cntN (names (removeAll o d2 (roomName cfg d)).dir) a =
          cntN (names d2) a := by
        rw [hC a, hrn]
        simp
      rw [hsv]
      unfold cmN
      rw [hcnt]
      have hx := hcm2 a
      unfold cmN at hx
      rw [hkeptnil] at hx
      exact hx
    · have hdecomp := getLast?_decomp hlast
      have hrn : roomName cfg d = [last.name] := by
        unfold roomName
        rw [if_pos hroom, hlast]
        rfl
      have hsv : survivors cfg d = (keptFiles cfg d).dropLast := by
        unfold survivors
        rw [if_pos hroom]
      have hksplit : cntN (names (keptFiles cfg d)) a =
          cntN (names ((keptFiles cfg d).dropLast)) a +
          (if last.name = a then 1 else 0) := by
        calc cntN (names (keptFiles cfg d)) a
            = cntN (names ((keptFiles cfg d).dropLast ++ [last])) a := by
              rw [← hdecomp]
          _ = cntN (names ((keptFiles cfg d).dropLast) ++ [last.name]) a := by
              rw [names_append]; rfl
          _ = _ := by
              rw [cntN_append, cntN_singleton]
      unfold cmN
      by_cases hm : isMatch a = true
      · rw [if_pos hm, if_pos hm, hC a, hrn, hsv]
        have h1 : cntN (names d2) a = cntN (names (keptFiles cfg d)) a := by
          have hx := hcm2 a
          unfold cmN at hx
          rw [if_pos hm, if_pos hm] at hx
          exact hx
        by_cases hal : a = last.name
        · rw [if_pos (List.mem_singleton.mpr hal)]
          have h2 := hnd2 a
          rw [hksplit, if_pos hal.symm] at h1
          omega
        · rw [if_neg (fun h => hal (List.mem_singleton.mp h))]
          rw [hksplit, if_neg (fun h => hal h.symm)] at h1
          omega
      · rw [if_neg hm, if_neg hm]
  · have hrn : roomName cfg d = [] := by
      unfold roomName
      rw [if_neg hroom]
    have hsv : survivors cfg d = keptFiles cfg d := by
      unfold survivors
      rw [if_neg hroom]
    unfold cmN
    by_cases hm : isMatch a = true
    · rw [if_pos hm, if_pos hm, hC a, hrn, hsv]
      simp only [List.not_mem_nil, if_false]
      have := hcm2 a
      unfold cmN at this
      rw [if_pos hm, if_pos hm] at this
      exact this
    · rw [if_neg hm, if_neg hm]

theorem mcount_names (d : Dir) : mcount d = ((names d).filter isMatch).length := by
  unfold mcount
  rw [show ((names d).filter isMatch).length = (names d).countP isMatch from
    (List.countP_eq_length_filter _ _).symm]
  unfold names
  rw [List.countP_map]
  rfl

theorem cntN_eq_count (l : List FileName) (a : FileName) :
    cntN l a = List.count a l := by
  unfold cntN List.count
  apply List.countP_congr
  intro x _
  simp

theorem matchLen_eq_of_cm {L L' : List FileName}
    (h : ∀ a, cmN L a = cmN L' a) :
    (L.filter isMatch).length = (L'.filter isMatch).length := by
  have hperm : (L.filter isMatch).Perm (L'.filter isMatch) := by
    rw [List.perm_iff_count]
    intro a
    rw [← cntN_eq_count, ← cntN_eq_count, cnt_filter, cnt_filter]
    have hx := h a
    unfold cmN at hx
    exact hx
  exact hperm.length_eq

theorem truncCreate_cnt_self (D : Dir) (n : FileName) :
    cntN (names (truncCreate D n)) n = 1 := by
  rw [names_truncCreate, cntN_cons, cnt_filter]
  simp

theorem mcount_truncCreate_le (D : Dir) (n : FileName) :
    mcount (truncCreate D n) ≤ 1 + mcount D := by
  rw [mcount_names, mcount_names, names_truncCreate, List.filter_cons]
  have hsub : (((names D).filter fun x => !decide (x = n)).filter
      isMatch).Sublist ((names D).filter isMatch) :=
    (List.filter_sublist _).filter _
  have hlen := hsub.length_le
  split
  · simp only [List.length_cons]
    omega
  · omega

theorem survivors_length_le (cfg : Nat) (d : Dir) (hmax : 1 ≤ cfg) :
    (survivors cfg d).length ≤ cfg - 1 := by
  have hk : (keptFiles cfg d).length ≤ cfg := by
    unfold keptFiles
    exact List.length_take_le _ _
  unfold survivors
  split
  · rw [List.length_dropLast]
    omega
  · rename_i hlt
    omega

theorem cnt_reverse_names (fl : List LogFile) (a : FileName) :
    cntN (names fl.reverse) a = cntN (names fl) a := by
  rw [show names fl.reverse = (names fl).reverse by simp [names], cntN_reverse]

theorem rotateScan_main (cfg : Config) (o : Oracle) (d : Dir)
    (hmax : 1 ≤ cfg.maxLogFiles)
    (hnd : ∀ a, cntN (names d) a ≤ 1)
    (hff : failFree (rotateScan cfg o d).tr = true) :
    cntN (names (rotateScan cfg o d).dir) (.idx 0) = 1 ∧
    mcount (rotateScan cfg o d).dir ≤ cfg.maxLogFiles := by
  unfold rotateScan at hff ⊢
  rcases hk : keptFiles cfg.maxLogFiles d with _ | ⟨first, rest⟩
  all_goals simp only [hk] at hff ⊢
  · rw [failFree_append, failFree_append] at hff
    simp only [Bool.and_eq_true] at hff
    obtain ⟨⟨hf1, hf2⟩, hft⟩ := hff
    rcases tryTouchP_success o _ (.idx 0) hft with ⟨htd, _⟩
    rcases trim_setup cfg.maxLogFiles o d hnd hf1 hf2 with ⟨hnd2, hcm2⟩
    rw [htd]
    refine ⟨truncCreate_cnt_self _ _, ?_⟩
    have hm2 : mcount (removeAll o (removeAll o d (junkNamesOf d)).dir
        (droppedNames cfg.maxLogFiles d)).dir = 0 := by
      rw [mcount_names, matchLen_eq_of_cm hcm2, hk]
      rfl
    have hle := mcount_truncCreate_le (removeAll o (removeAll o d
      (junkNamesOf d)).dir (droppedNames cfg.maxLogFiles d)).dir (.idx 0)
    omega
  · by_cases hneed : cfg.maxLogFileSize ≤ first.size ∨
      first.name ≠ FileName.idx 0
    · rw [if_pos hneed] at hff ⊢
      rw [failFree_append, failFree_append, failFree_append,
        failFree_append, failFree_append] at hff
      simp only [Bool.and_eq_true] at hff
      obtain ⟨⟨⟨⟨⟨hf1, hf2⟩, hf3⟩, hfp1⟩, hfp2⟩, hft⟩ := hff
      dsimp only
      rcases trim_setup cfg.maxLogFiles o d hnd hf1 hf2 with ⟨hnd2, hcm2⟩
      rcases room_setup cfg.maxLogFiles o _ d hnd2 hcm2 hf3 with ⟨hnd3, hcm3⟩
      set D3 := (removeAll o (removeAll o (removeAll o d
        (junkNamesOf d)).dir (droppedNames cfg.maxLogFiles d)).dir
        (roomName cfg.maxLogFiles d)).dir with hD3def
      set P1 := (if obstacleFound (survivors cfg.maxLogFiles d) then
        tempAux o D3 (survivors cfg.maxLogFiles d)
        else ⟨D3, survivors cfg.maxLogFiles d, []⟩ : PassOut) with hP1def
      have hP1 : (∀ a, cntN (names P1.dir) a ≤ 1) ∧
          (∀ a, cmN (names P1.dir) a = cmN (names P1.fl) a) ∧
          P1.fl.length = (survivors cfg.maxLogFiles d).length := by
        by_cases hob : obstacleFound (survivors cfg.maxLogFiles d) = true
        · have hP1eq : P1 = tempAux o D3 (survivors cfg.maxLogFiles d) := by
            rw [hP1def, if_pos hob]
          rw [hP1eq] at hfp1 ⊢
          rcases tempAux_main o (survivors cfg.maxLogFiles d) D3 hfp1 hnd3
            (fun f hf => mem_survivors_isIdx hf) with ⟨h1, h2⟩
          refine ⟨h1, ?_, tempAux_fl_length o _ _⟩
          intro a
          have := h2 a
          have := hcm3 a
          omega
        · have hP1eq : P1 = ⟨D3, survivors cfg.maxLogFiles d, []⟩ := by
            rw [hP1def, if_neg hob]
          rw [hP1eq]
          exact ⟨hnd3, hcm3, rfl⟩
      rcases linAux_main o P1.fl.reverse P1.dir P1.fl.length hfp2 hP1.1 with
        ⟨hnd5, hcm5eq⟩
      have hcm5 : ∀ a, cmN (names (linAux o P1.dir P1.fl.reverse
          P1.fl.length).dir) a = cmN (names (linAux o P1.dir P1.fl.reverse
          P1.fl.length).fl) a := by
        intro a
        have h1 := hcm5eq a
        have h2 : cmN (names P1.fl.reverse) a = cmN (names P1.fl) a := by
          unfold cmN
          rw [cnt_reverse_names]
        have h3 := hP1.2.1 a
        omega
      rcases tryTouchP_success o _ (.idx 0) hft with ⟨htd, _⟩
      rw [htd]
      refine ⟨truncCreate_cnt_self _ _, ?_⟩
      have hmp2 : mcount (linAux o P1.dir P1.fl.reverse P1.fl.length).dir ≤
          cfg.maxLogFiles - 1 := by
        rw [mcount_names, matchLen_eq_of_cm hcm5]
        have hlen1 : ((names (linAux o P1.dir P1.fl.reverse
            P1.fl.length).fl).filter isMatch).length ≤
            (names (linAux o P1.dir P1.fl.reverse P1.fl.length).fl).length :=
          (List.filter_sublist _).length_le
        have hlen2 : (names (linAux o P1.dir P1.fl.reverse
            P1.fl.length).fl).length =
            (linAux o P1.dir P1.fl.reverse P1.fl.length).fl.length := by
          simp [names]
        have hlen3 := linAux_fl_length o P1.fl.reverse P1.dir P1.fl.length
        have hlen4 : P1.fl.reverse.length = P1.fl.length := by simp
        have hlen5 := survivors_length_le cfg.maxLogFiles d hmax
        have hlen6 := hP1.2.2
        omega
      have hle := mcount_truncCreate_le
        (linAux o P1.dir P1.fl.reverse P1.fl.length).dir (.idx 0)
      omega
    · rw [if_neg hneed] at hff ⊢
      rw [failFree_append] at hff
      simp only [Bool.and_eq_true] at hff
      obtain ⟨hf1, hf2⟩ := hff
      rcases trim_setup cfg.maxLogFiles o d hnd hf1 hf2 with ⟨hnd2, hcm2⟩
      dsimp only
      push_neg at hneed
      obtain ⟨hsize, hname⟩ := hneed
      constructor
      · have h1 := hcm2 (FileName.idx 0)
        unfold cmN at h1
        rw [if_pos (show isMatch (FileName.idx 0) = true from rfl),
          if_pos (show isMatch (FileName.idx 0) = true from rfl)] at h1
        have hmem : FileName.idx 0 ∈ names (keptFiles cfg.maxLogFiles d) := by
          rw [hk]
          show FileName.idx 0 ∈ first.name :: names rest
          rw [hname]
          simp
        have h2 := cntN_pos_of_mem hmem
        have h3 := hnd2 (FileName.idx 0)
        omega
      · have hm2 : mcount (removeAll o (removeAll o d (junkNamesOf d)).dir
            (droppedNames cfg.maxLogFiles d)).dir =
            ((names (keptFiles cfg.maxLogFiles d)).filter isMatch).length := by
          rw [mcount_names, matchLen_eq_of_cm hcm2]
        have h4 : ((names (keptFiles cfg.maxLogFiles d)).filter
            isMatch).length ≤ (names (keptFiles cfg.maxLogFiles d)).length :=
          (List.filter_sublist _).length_le
        have h5 : (names (keptFiles cfg.maxLogFiles d)).length =
            (keptFiles cfg.maxLogFiles d).length := by
          simp [names]
        have h6 : (keptFiles cfg.maxLogFiles d).length ≤ cfg.maxLogFiles :=
          List.length_take_le _ _
        omega

theorem hasName_of_findFile_some {d : Dir} {n : FileName} {f : LogFile}
    (h : findFile d n = some f) : hasName d n = true := by
  have hm := List.mem_of_find?_eq_some h
  have hp := List.find?_some h
  exact List.any_eq_true.mpr ⟨f, hm, hp⟩

theorem fastPathKeep_hasName {cfg : Config} {d : Dir} {lfn : Option FileName}
    (h : fastPathKeep cfg d lfn = true) : hasName d (.idx 0) = true := by
  cases lfn with
  | none => simp [fastPathKeep] at h
  | some n =>
    simp only [fastPathKeep] at h
    by_cases hn : n = FileName.idx 0
    · rw [if_pos hn] at h
      rcases hfind : findFile d (.idx 0) with _ | f
      · rw [hfind] at h
        simp at h
      · exact hasName_of_findFile_some hfind
    · rw [if_neg hn] at h
      simp at h

/-- Claim C3 amended: every rotation pass uses the max-files and
max-file-size limits in effect when it starts, and the pass inside
initLogging runs before the caller-supplied values are clamped and
stored, so it enforces the previously configured limits rather than the
caller's.  For a single rotateLogFiles call on a directory with distinct
file names, with maxLogFiles at least 1 and no file-system failure in its
trace: the resulting directory holds exactly one file with index 0; a
fast-path call leaves the directory unchanged; and any scan-path call
leaves at most maxLogFiles glob-matching log files. -/
theorem C3_rotation_bound_amended (cfg : Config) (o : Oracle) (d : Dir)
    (lfn : Option FileName) (hd : cfg.dirSet = true)
    (hmax : 1 ≤ cfg.maxLogFiles) (hnodup : (names d).Nodup)
    (hff : failFree (rotateLogFiles cfg o d lfn).tr = true) :
    ((rotateLogFiles cfg o d lfn).dir.countP fun f =>
      decide (f.name = FileName.idx 0)) = 1 ∧
    (fastPathKeep cfg d lfn = true → (rotateLogFiles cfg o d lfn).dir = d) ∧
    (fastPathKeep cfg d lfn = false →
      mcount (rotateLogFiles cfg o d lfn).dir ≤ cfg.maxLogFiles) := by
  have hnd : ∀ a, cntN (names d) a ≤ 1 := cnt_le_one_of_nodup hnodup
  have hcnt_eq : ∀ (e : Dir),
      (e.countP fun f => decide (f.name = FileName.idx 0)) =
        cntN (names e) (.idx 0) := by
    intro e
    unfold cntN names
    rw [List.countP_map]
    rfl
  unfold rotateLogFiles at hff ⊢
  rw [hd] at hff ⊢
  simp only [Bool.true_eq_false, if_false] at hff ⊢
  by_cases hfp : fastPathKeep cfg d lfn = true
  · rw [if_pos hfp] at hff ⊢
    refine ⟨?_, fun _ => rfl, fun hc => by simp [hc] at hfp⟩
    rw [hcnt_eq]
    dsimp only
    have h1 := (hasName_iff_cnt d (.idx 0)).mp (fastPathKeep_hasName hfp)
    have h2 := hnd (.idx 0)
    omega
  · rw [if_neg hfp] at hff ⊢
    rcases rotateScan_main cfg o d hmax hnd hff with ⟨h1, h2⟩
    refine ⟨?_, fun hc => absurd hc hfp, fun _ => h2⟩
    rw [hcnt_eq]
    exact h1

def cxState3 : LogState :=
  ⟨⟨10, 10485760, false, false, .debug, .debug, "", true, false⟩,
   [⟨.idx 0, 0, []⟩, ⟨.idx 1, 0, []⟩, ⟨.idx 2, 0, []⟩], none, []⟩

/-- Claim C3 as stated is false on the code: initLogging performs its
rotation pass before clamping and storing the caller-supplied maxFiles
and maxFileSize, so that pass enforces the previously configured limit.
With the default limit of 10 still in effect, a caller requesting
maxFiles 2 on a directory of three small well-named log files gets a
successful initialization whose rotation pass deleted nothing: after the
pass the stored limit is 2 but the directory holds 3 matching files. -/
theorem C3_init_clamp_order_cx :
    (initLogging true Oracle.allOk 10000 2 10485760 cxState3).1 = true ∧
    (initLogging true Oracle.allOk 10000 2 10485760
      cxState3).2.cfg.maxLogFiles = 2 ∧
    mcount (initLogging true Oracle.allOk 10000 2 10485760 cxState3).2.dir
      = 3 := by
  decide

def wcfg3 : Config := ⟨2, 102400, true, true, .debug, .debug, "", true, false⟩

def wdir3 : Dir := [⟨.idx 0, 204800, []⟩, ⟨.idx 1, 0, []⟩]

theorem C3_rotation_bound_amended_witness :
    (wcfg3.dirSet = true ∧ 1 ≤ wcfg3.maxLogFiles ∧ (names wdir3).Nodup ∧
      failFree (rotateLogFiles wcfg3 Oracle.allOk wdir3 none).tr = true) ∧
    ((rotateLogFiles wcfg3 Oracle.allOk wdir3 none).dir.countP fun f =>
      decide (f.name = FileName.idx 0)) = 1 ∧
    (fastPathKeep wcfg3 wdir3 none = false →
      mcount (rotateLogFiles wcfg3 Oracle.allOk wdir3 none).dir ≤
        wcfg3.maxLogFiles) := by
  have h := C3_rotation_bound_amended wcfg3 Oracle.allOk wdir3 none rfl
    (by decide) (by decide) (by decide)
  exact ⟨⟨rfl, by decide, by decide, by decide⟩, h.1, h.2.2⟩

/-- Whether the scan branch takes the renaming path: the kept fileList is
nonempty and its lowest-postfix file is oversized or not the main name. -/
def scanRenames (cfg : Config) (d : Dir) : Bool :=
  match keptFiles cfg.maxLogFiles d with
  | [] => false
  | first :: _ => decide (cfg.maxLogFileSize ≤ first.size ∨ first.name ≠ .idx 0)

theorem tryRenameP_rename_mem (o : Oracle) (d : Dir) (src dst : FileName) :
    ∃ b, Ev.rename src dst b ∈ (tryRenameP o d src dst).tr := by
  unfold tryRenameP
  split
  · exact ⟨true, List.mem_cons_self _ _⟩
  · exact ⟨false, List.mem_cons_self _ _⟩

theorem tempAux_tr_mem (o : Oracle) (fl : List LogFile) (d : Dir) :
    ∀ f ∈ fl, ∃ b, Ev.rename f.name (tempName f.name) b ∈ (tempAux o d fl).tr := by
  induction fl generalizing d with
  | nil =>
    intro f hf
    cases hf
  | cons g rest ih =>
    intro f hf
    simp only [tempAux]
    rcases List.mem_cons.mp hf with rfl | hf'
    · rcases tryRenameP_rename_mem o d f.name (tempName f.name) with ⟨b, hb⟩
      exact ⟨b, List.mem_append_left _ hb⟩
    · rcases ih (tryRenameP o d g.name (tempName g.name)).dir f hf' with ⟨b, hb⟩
      exact ⟨b, List.mem_append_right _ hb⟩

theorem tryRemoveP_no_temp (o : Oracle) (d : Dir) (n : FileName) :
    ((tryRemoveP o d n).tr.all fun e => !isTempRenameEv e) = true := by
  unfold tryRemoveP
  split <;> rfl

theorem removeAll_no_temp (o : Oracle) (ns : List FileName) (d : Dir) :
    ((removeAll o d ns).tr.all fun e => !isTempRenameEv e) = true := by
  induction ns generalizing d with
  | nil => rfl
  | cons n rest ih =>
    simp only [removeAll, List.all_append, Bool.and_eq_true]
    exact ⟨tryRemoveP_no_temp o d n, ih (tryRemoveP o d n).dir⟩

theorem tryRenameP_idx_no_temp (o : Oracle) (d : Dir) (src : FileName) (k : Nat) :
    ((tryRenameP o d src (.idx k)).tr.all fun e => !isTempRenameEv e) = true := by
  unfold tryRenameP
  split <;> rfl

theorem linAux_no_temp (o : Oracle) (fl : List LogFile) (d : Dir) (k : Nat) :
    ((linAux o d fl k).tr.all fun e => !isTempRenameEv e) = true := by
  induction fl generalizing d k with
  | nil => rfl
  | cons f rest ih =>
    simp only [linAux]
    by_cases hc : f.name = FileName.idx k
    · rw [if_pos hc]
      exact ih d (k - 1)
    · rw [if_neg hc]
      simp only [List.all_append, Bool.and_eq_true]
      exact ⟨tryRenameP_idx_no_temp o d f.name k,
        ih (tryRenameP o d f.name (.idx k)).dir (k - 1)⟩

theorem tryTouchP_no_temp (o : Oracle) (d : Dir) (n : FileName) :
    ((tryTouchP o d n).tr.all fun e => !isTempRenameEv e) = true := by
  unfold tryTouchP
  split <;> rfl

theorem rotateScan_temp_mem (cfg : Config) (o : Oracle) (d : Dir)
    (hneed : scanRenames cfg d = true)
    (hob : obstacleFound (survivors cfg.maxLogFiles d) = true) :
    ∀ f ∈ survivors cfg.maxLogFiles d,
      ∃ b, Ev.rename f.name (tempName f.name) b ∈ (rotateScan cfg o d).tr := by
  intro f hf
  rcases hk : keptFiles cfg.maxLogFiles d with _ | ⟨first, rest⟩
  · rw [scanRenames, hk] at hneed
    cases hneed
  · rw [scanRenames, hk, decide_eq_true_eq] at hneed
    simp only [rotateScan, hk]
    rw [if_pos hneed, if_pos hob]
    rcases tempAux_tr_mem o (survivors cfg.maxLogFiles d) _ f hf with ⟨b, hb⟩
    exact ⟨b, List.mem_append_left _ (List.mem_append_left _
      (List.mem_append_right _ hb))⟩

theorem rotateScan_no_temp (cfg : Config) (o : Oracle) (d : Dir)
    (hob : obstacleFound (survivors cfg.maxLogFiles d) = false) :
    ((rotateScan cfg o d).tr.all fun e => !isTempRenameEv e) = true := by
  rcases hk : keptFiles cfg.maxLogFiles d with _ | ⟨first, rest⟩
  · simp only [rotateScan, hk]
    simp only [List.all_append, Bool.and_eq_true]
    exact ⟨⟨removeAll_no_temp o _ d, removeAll_no_temp o _ _⟩,
      tryTouchP_no_temp o _ _⟩
  · simp only [rotateScan, hk]
    by_cases hneed : cfg.maxLogFileSize ≤ first.size ∨ first.name ≠ FileName.idx 0
    · rw [if_pos hneed]
      rw [hob]
      simp only [Bool.false_eq_true, if_false]
      simp only [List.all_append, Bool.and_eq_true]
      exact ⟨⟨⟨⟨⟨removeAll_no_temp o _ d, removeAll_no_temp o _ _⟩,
        removeAll_no_temp o _ _⟩, rfl⟩, linAux_no_temp o _ _ _⟩,
        tryTouchP_no_temp o _ _⟩
    · rw [if_neg hneed]
      simp only [List.all_append, Bool.and_eq_true]
      exact ⟨removeAll_no_temp o _ d, removeAll_no_temp o _ _⟩

def cxCfg6 : Config := ⟨10, 102400, true, true, .debug, .debug, "", true, false⟩

def cxDir6 : Dir := [⟨.idx 2, 0, []⟩, ⟨.idx 4, 0, []⟩, ⟨.idx 6, 0, []⟩]

/-- Claim C6 as stated is false on the code: the collision check of
rotateLogFiles only tests whether some survivor already bears the single
name "appName_<count>.log" (count = number of survivors), not whether any
rename target (position+1) is held by a not-yet-renamed file.  On the
directory {app_2, app_4, app_6} the claim's collision predicate holds
(app_2 occupies position 1's target index 2) while the code's obstacle
check does not fire, so no temporary renames happen; the descending pass
then renames app_6 to app_3 but fails to rename app_4 to app_2 because
app_2 has not been moved yet, leaving a failed rename in the trace. -/
theorem C6_collision_detection_cx :
    naiveCollisionB (survivors cxCfg6.maxLogFiles cxDir6) = true ∧
    obstacleFound (survivors cxCfg6.maxLogFiles cxDir6) = false ∧
    ((rotateLogFiles cxCfg6 Oracle.allOk cxDir6 none).tr.all
      fun e => !isTempRenameEv e) = true ∧
    Ev.rename (.idx 6) (.idx 3) true ∈
      (rotateLogFiles cxCfg6 Oracle.allOk cxDir6 none).tr ∧
    Ev.rename (.idx 4) (.idx 2) false ∈
      (rotateLogFiles cxCfg6 Oracle.allOk cxDir6 none).tr ∧
    hasName (rotateLogFiles cxCfg6 Oracle.allOk cxDir6 none).dir (.idx 4)
      = true := by
  decide

/-- Claim C6 amended: the temporary-rename pass of rotateLogFiles is
driven solely by the obstacle check "some surviving file already bears the
name appName_<count>.log" (count = number of survivors).  On any renaming
scan pass, when that check fires every surviving file receives a
temporary-rename attempt before the descending index renames; when it
does not fire, the pass performs no temporary rename at all, even if some
intermediate rename target (position+1) is occupied by a file not yet
renamed, in which case that rename attempt simply fails (Qt rename never
overwrites) and the file keeps its old name. -/
theorem C6_temp_pass_amended (cfg : Config) (o : Oracle) (d : Dir)
    (lfn : Option FileName) (hd : cfg.dirSet = true)
    (hfp : fastPathKeep cfg d lfn = false)
    (hneed : scanRenames cfg d = true) :
    (obstacleFound (survivors cfg.maxLogFiles d) = true →
      ∀ f ∈ survivors cfg.maxLogFiles d,
        ∃ b, Ev.rename f.name (tempName f.name) b ∈
          (rotateLogFiles cfg o d lfn).tr) ∧
    (obstacleFound (survivors cfg.maxLogFiles d) = false →
      ((rotateLogFiles cfg o d lfn).tr.all fun e => !isTempRenameEv e)
        = true) := by
  have hfp' : ¬ fastPathKeep cfg d lfn = true := by simp [hfp]
  unfold rotateLogFiles
  rw [hd]
  simp only [Bool.true_eq_false, if_false]
  rw [if_neg hfp']
  exact ⟨fun hob => rotateScan_temp_mem cfg o d hneed hob,
    fun hob => rotateScan_no_temp cfg o d hob⟩

def wcfg6 : Config := ⟨10, 102400, true, true, .debug, .debug, "", true, false⟩

def wdir6 : Dir := [⟨.idx 1, 0, []⟩, ⟨.idx 2, 0, []⟩]

theorem C6_temp_pass_amended_witness :
    (wcfg6.dirSet = true ∧ fastPathKeep wcfg6 wdir6 none = false ∧
      scanRenames wcfg6 wdir6 = true ∧
      obstacleFound (survivors wcfg6.maxLogFiles wdir6) = true) ∧
    (∀ f ∈ survivors wcfg6.maxLogFiles wdir6,
      ∃ b, Ev.rename f.name (tempName f.name) b ∈
        (rotateLogFiles wcfg6 Oracle.allOk wdir6 none).tr) := by
  have h := C6_temp_pass_amended wcfg6 Oracle.allOk wdir6 none rfl rfl rfl
  exact ⟨⟨rfl, rfl, rfl, by decide⟩, h.1 (by decide)⟩

def cxO8 : Oracle := ⟨true, true, false, true⟩

def cxCfg8 : Config := ⟨10, 102400, true, true, .debug, .debug, "", true, false⟩

def cxDir8 : Dir := [⟨.idx 0, 204800, []⟩]

def cxDir8b : Dir := [⟨.idx 1, 204800, []⟩]

/-- Claim C8 as stated is false on the code: when creating the new empty
index-0 file fails, rotateLogFiles does report the error and return
false, but it does not leave the logFileName out-parameter unresolved:
lines 367-369 assign the main name before returning, so after the failed
pass logFileName holds "appName_0.log" rather than the empty string.  On
a single oversized main file with a failing touch, the pass renames it to
index 1, fails creation, returns false - and logFileName is some index-0
name, not none. -/
theorem C8_touch_failure_cx :
    (rotateLogFiles cxCfg8 cxO8 cxDir8 none).ok = false ∧
    Ev.errorReported ∈ (rotateLogFiles cxCfg8 cxO8 cxDir8 none).tr ∧
    (rotateLogFiles cxCfg8 cxO8 cxDir8 none).logFileName = some (.idx 0) ∧
    ¬ (rotateLogFiles cxCfg8 cxO8 cxDir8 none).logFileName = none := by
  decide

/-- Claim C8 amended: when a rotation pass fails (with the log directory
configured), the error is reported in its trace and the pass returns
false, but logFileName is assigned the main index-0 name rather than
being left unresolved.  Retry still works for a different reason: on any
later call where the index-0 file is absent on disk - as after a failed
creation - the fast path rejects the stale resolved name and the call
behaves exactly as if logFileName were unresolved, rerunning the scan. -/
theorem C8_touch_failure_amended (cfg : Config) (o o2 : Oracle) (d d2 : Dir)
    (lfn lfn2 : Option FileName) (hd : cfg.dirSet = true)
    (hf : (rotateLogFiles cfg o d lfn).ok = false) :
    Ev.errorReported ∈ (rotateLogFiles cfg o d lfn).tr ∧
    (rotateLogFiles cfg o d lfn).logFileName = some (.idx 0) ∧
    (findFile d2 (.idx 0) = none →
      rotateLogFiles cfg o2 d2 lfn2 = rotateLogFiles cfg o2 d2 none) := by
  rcases rotate_fail_cases cfg o d lfn hd hf with ⟨h1, h2⟩
  exact ⟨h1, h2, fun habs => rotate_retry_of_absent cfg o2 d2 lfn2 hd habs⟩

theorem C8_touch_failure_amended_witness :
    (cxCfg8.dirSet = true ∧
      (rotateLogFiles cxCfg8 cxO8 cxDir8 none).ok = false ∧
      findFile cxDir8b (.idx 0) = none) ∧
    (Ev.errorReported ∈ (rotateLogFiles cxCfg8 cxO8 cxDir8 none).tr ∧
      (rotateLogFiles cxCfg8 cxO8 cxDir8 none).logFileName = some (.idx 0) ∧
      rotateLogFiles cxCfg8 Oracle.allOk cxDir8b (some (.idx 0)) =
        rotateLogFiles cxCfg8 Oracle.allOk cxDir8b none) := by
  have h := C8_touch_failure_amended cxCfg8 cxO8 Oracle.allOk cxDir8 cxDir8b
    none (some (.idx 0)) rfl (by decide)
  exact ⟨⟨rfl, by decide, by decide⟩, h.1, h.2.1, h.2.2 (by decide)⟩
